import Mathlib

/-!
Expense tracker: the SQLite-backed store and the interactive shell.

A shallow embedding of `expense.go`, `database.go`, `cli.go` and `main.go`.

* The global `*sql.DB` handle becomes an explicit `DB` value that every store
  operation receives and (for the mutating ones) returns.
* A Go `error` becomes an `Err`; `(T, error)` becomes `Except Err T`; a mutating
  operation returns the new database together with `Option Err`.
* Library behaviour the Go code relies on is modelled from its documentation:
  `time.Parse` / `Time.Format` for the layout `2006-01-02`, `time.Date`
  normalisation, `strings.TrimSpace`, `strings.ToUpper`, `strconv.ParseFloat`,
  and the SQL statements (AUTOINCREMENT, ORDER BY on TEXT with the BINARY
  collation, LIKE, SUM, GROUP BY, upsert).
* A `float64` is `Float64`: NaN, the two infinities, or a finite value given by
  its exact rational value.  Addition and subtraction round the exact result to the
  nearest binary64 value, ties to the even significand, and overflow to an infinity
  (IEEE 754); the sign of a zero is not kept.
* The aggregate `SUM` of SQLite is a field of `Engine`: the value it returns for the
  amounts it visits depends on the version of the library (plain accumulation or
  compensated summation), which the repository does not fix.
* The model of `time.Date` stands for years, months and days between -10^9 and 10^9;
  outside it `Date` is `none`, because the Go function computes on machine integers
  and wraps.
* Texts are sequences of Unicode code points (valid UTF-8).
-/

namespace ExpenseTracker

/-! ## float64 -/

/-- A Go `float64`: NaN, a finite value (its exact value), or an infinity. -/
inductive Float64 where
  | nan
  | fin (q : ℚ)
  | inf (neg : Bool)
  deriving DecidableEq

namespace Float64

/-- The constant `0`. -/
def zero : Float64 := fin 0

/-- The integer nearest to `n / d`; when `n / d` lies half way between two integers, the
even one. -/
def nearestEven (n d : Nat) : Nat :=
  let f := n / d
  let r := n % d
  if 2 * r < d then f
  else if d < 2 * r then f + 1
  else if f % 2 = 0 then f else f + 1

/-- The number of binary digits of `n` (with `fuel` at least the number of digits). -/
def bitLength : Nat → Nat → Nat
  | 0, _ => 0
  | fuel + 1, n => if n = 0 then 0 else bitLength fuel (n / 2) + 1

/-- The exponent `e` with `2^e ≤ n / d < 2^(e+1)`, for positive `n` and `d`. -/
def binaryExponent (n d : Nat) : Int :=
  let e : Int := (bitLength n n : Int) - (bitLength d d : Int)
  if d * 2 ^ e.toNat ≤ n * 2 ^ (-e).toNat then e else e - 1

/-- The binary64 value nearest to the rational `q` (IEEE 754 round to nearest, ties to
even): a multiple `m * 2^k` of the spacing `2^k` at the size of `q`, where `k` is the
exponent of `q` less 52 and at least -1074 (subnormal values); an infinity when the
rounded value reaches `2^1024`. -/
def nearest (q : ℚ) : Float64 :=
  let n := q.num.natAbs
  let d := q.den
  let k : Int := max (binaryExponent n d) (-1022) - 52
  let m := nearestEven (n * 2 ^ (-k).toNat) (d * 2 ^ k.toNat)
  if 2 ^ 1024 ≤ m * 2 ^ k.toNat then inf (decide (q < 0))
  else fin (mkRat (if q < 0 then -((m * 2 ^ k.toNat : Nat) : Int) else ((m * 2 ^ k.toNat : Nat) : Int))
    (2 ^ (-k).toNat))

/-- Addition of `float64` values (IEEE 754): the exact sum of two finite values, rounded
to the nearest binary64 value. -/
def add : Float64 → Float64 → Float64
  | nan, _ => nan
  | _, nan => nan
  | inf a, inf b => if a = b then inf a else nan
  | inf a, fin _ => inf a
  | fin _, inf b => inf b
  | fin p, fin q => nearest (p + q)

/-- The negation `-a` of Go. -/
def neg : Float64 → Float64
  | nan => nan
  | fin q => fin (-q)
  | inf b => inf (!b)

/-- The subtraction `a - b` of Go (IEEE 754: `a + (-b)`). -/
def sub (a b : Float64) : Float64 := add a (neg b)

/-- The absolute value (`fabs` of C). -/
def abs : Float64 → Float64
  | nan => nan
  | fin q => fin |q|
  | inf _ => inf false

/-- The comparison `a <= b` of Go: false as soon as one side is NaN. -/
def le : Float64 → Float64 → Bool
  | nan, _ => false
  | _, nan => false
  | inf a, inf b => a || !b
  | inf a, fin _ => a
  | fin _, inf b => !b
  | fin p, fin q => decide (p ≤ q)

/-- The comparison `a < b` of Go: false as soon as one side is NaN. -/
def lt : Float64 → Float64 → Bool
  | nan, _ => false
  | _, nan => false
  | inf a, inf b => a && !b
  | inf a, fin _ => a
  | fin _, inf b => !b
  | fin p, fin q => decide (p < q)

/-- The comparison `a > b` of Go. -/
def gt (a b : Float64) : Bool := lt b a

end Float64

/-! ## Calendar dates (`time.Time` restricted to what the program observes) -/

/-- The date part of a `time.Time`: what `Year()`, `Month()`, `Day()` and
`Format("2006-01-02")` observe. -/
structure Time where
  year : Int
  month : Nat
  day : Nat
  deriving DecidableEq

/-- Leap-year test of package `time`. -/
def isLeap (year : Int) : Bool :=
  year % 4 = 0 && (year % 100 ≠ 0 || year % 400 = 0)

/-- The table `daysBefore` of package `time`: days in a non-leap year before month `m+1`. -/
def daysBefore : List Nat := [0, 31, 59, 90, 120, 151, 181, 212, 243, 273, 304, 334, 365]

/-- Number of days of month `m` of `year` (`daysIn` of package `time`). -/
def daysIn (m : Nat) (year : Int) : Nat :=
  if m = 2 ∧ isLeap year = true then 29
  else daysBefore.getD m 0 - daysBefore.getD (m - 1) 0

/-- A date that the layout `2006-01-02` can write and read back: a real calendar day
with a four-digit year. -/
def Time.Valid (t : Time) : Prop :=
  0 ≤ t.year ∧ t.year ≤ 9999 ∧ 1 ≤ t.month ∧ t.month ≤ 12 ∧ 1 ≤ t.day ∧ t.day ≤ daysIn t.month t.year

instance (t : Time) : Decidable t.Valid := by
  unfold Time.Valid; infer_instance

/-- Calendar order `a` before `b` (`Time.Before` on dates). -/
def Time.Before (a b : Time) : Prop :=
  a.year < b.year ∨ (a.year = b.year ∧ (a.month < b.month ∨ (a.month = b.month ∧ a.day < b.day)))

instance (a b : Time) : Decidable (a.Before b) := by
  unfold Time.Before; infer_instance

/-- Month normalisation of `time.Date` (`norm(year, month-1, 12)`): overflow goes into the year. -/
def normMonth (year month : Int) : Int × Nat :=
  (year + (month - 1) / 12, ((month - 1) % 12).toNat + 1)

/-- Day normalisation of `time.Date`: a day before the 1st moves into the previous
months, a day after the last day of the month moves into the following ones
("October 32 converts to November 1"). -/
def normDay : Nat → Int → Nat → Int → Time
  | 0, y, m, d => ⟨y, m, d.toNat⟩
  | fuel + 1, y, m, d =>
    if d < 1 then
      let y1 := if m = 1 then y - 1 else y
      let m1 := if m = 1 then 12 else m - 1
      normDay fuel y1 m1 (d + daysIn m1 y1)
    else if (daysIn m y : Int) < d then
      let y1 := if m = 12 then y + 1 else y
      let m1 := if m = 12 then 1 else m + 1
      normDay fuel y1 m1 (d - daysIn m y)
    else ⟨y, m, d.toNat⟩

/-- The arguments of `time.Date` that the model covers: between -10^9 and 10^9, where the
arithmetic of the Go function on machine integers does not overflow. -/
def dateRange (x : Int) : Bool := decide (-1000000000 ≤ x) && decide (x ≤ 1000000000)

/-- The date of `time.Date(year, month, day, 0, 0, 0, 0, time.UTC)`; month and day
may be outside their usual ranges and are normalised.  Every step of `normDay` moves
the day by at least 28, so `|day| + 1` steps are enough.  The result is `none` for
arguments outside `dateRange`, about which the model says nothing. -/
def Date (year month day : Int) : Option Time :=
  if dateRange year && dateRange month && dateRange day then
    let ym := normMonth year month
    some (normDay (day.natAbs + 1) ym.1 ym.2 day)
  else none

/-- The date of `t.AddDate(years, months, days)`. -/
def Time.AddDate (t : Time) (years months days : Int) : Option Time :=
  Date (t.year + years) (t.month + months) (t.day + days)

/-- Does the date lie from the first to the last day of month `m` of `year`? -/
def Time.InMonth (t : Time) (year : Int) (m : Nat) : Bool :=
  !(decide (t.Before ⟨year, m, 1⟩)) && !(decide ((⟨year, m, daysIn m year⟩ : Time).Before t))

/-! ## Text: the layout `2006-01-02` and byte-wise comparison -/

/-- The decimal digit `n` as a character (`'0' + n`). -/
def digitChar (n : Nat) : Char := Char.ofNat (48 + n)

/-- The decimal digits of `u` without padding (none for 0); a number has at most `u`
digits, which is what `fuel` is set to. -/
def leadDigits : Nat → Nat → List Char
  | 0, _ => []
  | fuel + 1, u => if u = 0 then [] else leadDigits fuel (u / 10) ++ [digitChar (u % 10)]

/-- The decimal digits of `u`, zero-padded on the left to at least `w` digits. -/
def padDigits : Nat → Nat → List Char
  | 0, u => leadDigits u u
  | w + 1, u => padDigits w (u / 10) ++ [digitChar (u % 10)]

/-- The function `appendInt` of package `time`: sign, then zero-padded digits. -/
def appendInt (x : Int) (width : Nat) : List Char :=
  (if x < 0 then ['-'] else []) ++ padDigits width x.natAbs

/-- The text of `t.Format("2006-01-02")`. -/
def Time.Format (t : Time) : String :=
  String.mk (appendInt t.year 4 ++ '-' :: appendInt t.month 2 ++ '-' :: appendInt t.day 2)

/-- ASCII digit test (`isDigit` of package `time`). -/
def isDigit (c : Char) : Bool := decide (48 ≤ c.toNat) && decide (c.toNat ≤ 57)

/-- Value of an ASCII digit. -/
def digitVal (c : Char) : Nat := c.toNat - 48

/-- The result of `time.Parse("2006-01-02", value)`, `none` when it returns an error:
exactly four year digits, `-`, two month digits in 1..12, `-`, two day digits, the day
within the month, and nothing after. -/
def Parse (value : String) : Option Time :=
  match value.data with
  | [y3, y2, y1, y0, s1, m1, m0, s2, d1, d0] =>
    if isDigit y3 && isDigit y2 && isDigit y1 && isDigit y0 && s1 == '-'
        && isDigit m1 && isDigit m0 && s2 == '-' && isDigit d1 && isDigit d0 then
      let year : Int := ((1000 * digitVal y3 + 100 * digitVal y2 + 10 * digitVal y1 + digitVal y0 : Nat) : Int)
      let month := 10 * digitVal m1 + digitVal m0
      let day := 10 * digitVal d1 + digitVal d0
      if month = 0 ∨ 12 < month then none
      else if day < 1 ∨ daysIn month year < day then none
      else some ⟨year, month, day⟩
    else none
  | _ => none

/-- Byte-wise "less than" on texts, the BINARY collation of SQLite (on UTF-8 the byte
order is the order of the code points; a proper prefix is smaller). -/
def textLt : List Char → List Char → Bool
  | [], [] => false
  | [], _ :: _ => true
  | _ :: _, [] => false
  | a :: as, b :: bs =>
    if a.toNat < b.toNat then true
    else if b.toNat < a.toNat then false
    else textLt as bs

/-- The SQL comparison `a <= b` on TEXT values. -/
def textLe (a b : String) : Bool := !textLt b.data a.data

/-! ## Strings: `strings.TrimSpace`, `strings.ToUpper`, `strconv.ParseFloat` -/

/-- White space in the sense of `unicode.IsSpace`. -/
def isSpace (c : Char) : Bool :=
  [0x09, 0x0A, 0x0B, 0x0C, 0x0D, 0x20, 0x85, 0xA0, 0x1680, 0x2028, 0x2029, 0x202F, 0x205F, 0x3000].contains c.toNat
    || (decide (0x2000 ≤ c.toNat) && decide (c.toNat ≤ 0x200A))

/-- The function `strings.TrimSpace`: leading and trailing white space removed. -/
def TrimSpace (s : String) : String :=
  String.mk ((s.data.dropWhile isSpace).reverse.dropWhile isSpace).reverse

/-- What the program takes from its environment: the clock, and the two library
tables that are not part of the repository. -/
structure Runtime where
  /-- The date of `time.Now()`. -/
  now : Time
  /-- The numeric branch of `strconv.ParseFloat` (decimal and hexadecimal literals),
  `none` when it returns an error. -/
  numeric : String → Option Float64
  /-- The upper-case mapping of `unicode.ToUpper` on characters above U+007F. -/
  upperRune : Char → Char

/-- The function `unicode.ToUpper`: `a`..`z` move to `A`..`Z`, other ASCII characters are
kept, other characters go through the Unicode case tables. -/
def toUpperRune (rt : Runtime) (c : Char) : Char :=
  if c.toNat < 128 then
    (if 97 ≤ c.toNat ∧ c.toNat ≤ 122 then Char.ofNat (c.toNat - 32) else c)
  else rt.upperRune c

/-- The function `strings.ToUpper`. -/
def ToUpper (rt : Runtime) (s : String) : String := String.mk (s.data.map (toUpperRune rt))

/-- ASCII lower-casing as in `commonPrefixLenIgnoreCase` of package `strconv`. -/
def asciiLower (c : Char) : Char :=
  if 65 ≤ c.toNat ∧ c.toNat ≤ 90 then Char.ofNat (c.toNat + 32) else c

/-- Length of the common prefix of `s` and the lower-case `pre`, ignoring ASCII case in `s`. -/
def commonPrefixLenIgnoreCase : List Char → List Char → Nat
  | c :: s, p :: pre => if asciiLower c = p then commonPrefixLenIgnoreCase s pre + 1 else 0
  | _, _ => 0

/-- The `inf` / `infinity` branch of `special`: the value and the number of bytes read. -/
def specialInf (neg : Bool) (nsign : Nat) (s : List Char) : Option (Float64 × Nat) :=
  let n0 := commonPrefixLenIgnoreCase s "infinity".data
  let n := if 3 < n0 ∧ n0 < 8 then 3 else n0
  if n = 3 ∨ n = 8 then some (Float64.inf neg, nsign + n) else none

/-- The function `special` of package `strconv`: the spellings of the infinities and of NaN. -/
def special (s : List Char) : Option (Float64 × Nat) :=
  match s with
  | [] => none
  | c :: rest =>
    if c = '+' then specialInf false 1 rest
    else if c = '-' then specialInf true 1 rest
    else if c = 'i' ∨ c = 'I' then specialInf false 0 s
    else if c = 'n' ∨ c = 'N' then
      (if commonPrefixLenIgnoreCase s "nan".data = 3 then some (Float64.nan, 3) else none)
    else none

/-- The result of `strconv.ParseFloat(s, 64)`, `none` when it returns an error.  The special
spellings are tried first and must cover the whole string; everything else is a numeric
literal. -/
def ParseFloat (rt : Runtime) (s : String) : Option Float64 :=
  match special s.data with
  | some (v, n) => if n = s.data.length then some v else none
  | none => rt.numeric s

/-! ## The data model (`expense.go`) and the database -/

/-- The struct `Expense` of `expense.go`. -/
structure Expense where
  ID : Int
  Amount : Float64
  Description : String
  Category : String
  Date : Time
  PaymentMethod : String
  Notes : String
  deriving DecidableEq

/-- A row of table `expenses`; `date` is the TEXT column. -/
structure Row where
  id : Int
  amount : Float64
  description : String
  category : String
  date : String
  payment_method : String
  notes : String
  deriving DecidableEq

/-- A row of table `settings`.  The TEXT column `value` holds the decimal text of a number
and is read back into a `float64`; the model keeps the number (the conversion to text and
back is taken to be exact). -/
structure Setting where
  key : String
  value : Float64
  deriving DecidableEq

/-- The database file: the rows of `expenses` in rowid order, the AUTOINCREMENT counter
that SQLite keeps for `expenses` in `sqlite_sequence`, and the rows of `settings`. -/
structure DB where
  expenses : List Row
  seq : Int
  settings : List Setting
  deriving DecidableEq

/-- The errors built with `fmt.Errorf` in `database.go` and `cli.go`. -/
inductive Err where
  /-- Message "failed to add expense: ..." -/
  | addExpense
  /-- Message "failed to set monthly budget: ..." -/
  | setBudget
  /-- Message "failed to parse date: ..." -/
  | parseDate
  /-- Message "failed to search expenses: ..." -/
  | search
  /-- Message "failed to scan category total: ..." -/
  | scanTotal
  /-- Message "expense with ID %d not found" -/
  | notFound (id : Int)
  /-- Message "invalid amount. Please enter a positive number" -/
  | invalidAmount
  /-- Message "description cannot be empty" -/
  | emptyDescription
  /-- Message "category cannot be empty" -/
  | emptyCategory
  /-- Message "invalid date format. Please use YYYY-MM-DD" -/
  | invalidDate
  /-- Message "invalid payment method. Please enter 'Cash' or 'UPI'" -/
  | invalidPayment
  deriving DecidableEq

deriving instance DecidableEq for Except

/-- The state after `InitDB` on a new file: both tables exist and are empty. -/
def InitDB : DB := { expenses := [], seq := 0, settings := [] }

/-- The largest rowid SQLite can assign. -/
def maxRowid : Int := 9223372036854775807

/-- The largest `id` among the rows (0 for the empty table). -/
def largestId (rows : List Row) : Int := rows.foldr (fun r m => max r.id m) 0

/-! ## The store (`database.go`) -/

/-- Go function `GetMonthlyBudget`: the value of the row with key `monthly_budget`, and `0` when
`QueryRow` reports `sql.ErrNoRows`. -/
def GetMonthlyBudget (db : DB) : Except Err Float64 :=
  match db.settings.find? (fun s => s.key = "monthly_budget") with
  | none => .ok Float64.zero
  | some s => .ok s.value

/-- Go function `SetMonthlyBudget`: `INSERT ... ON CONFLICT(key) DO UPDATE SET value = excluded.value`.
A NaN is bound as NULL and violates `value TEXT NOT NULL`. -/
def SetMonthlyBudget (db : DB) (budget : Float64) : DB × Option Err :=
  if budget = Float64.nan then (db, some Err.setBudget)
  else if db.settings.any (fun s => s.key = "monthly_budget") then
    let updated := db.settings.map
      (fun s => if s.key = "monthly_budget" then { s with value := budget } else s)
    ({ db with settings := updated }, none)
  else ({ db with settings := db.settings ++ [{ key := "monthly_budget", value := budget }] }, none)

/-- Go function `AddExpense`: one `INSERT` without an id.  With `INTEGER PRIMARY KEY AUTOINCREMENT` the
new id is one more than the largest id the table ever held (the counter of
`sqlite_sequence`, or the largest id present if that is larger); the insert fails when that
was the largest possible rowid.  A NaN amount is bound as NULL and violates
`amount REAL NOT NULL`.  The date is stored as the text of `Format("2006-01-02")`. -/
def AddExpense (db : DB) (expense : Expense) : DB × Option Err :=
  if expense.Amount = Float64.nan then (db, some Err.addExpense)
  else
    let last := max db.seq (largestId db.expenses)
    if maxRowid ≤ last then (db, some Err.addExpense)
    else
      let row : Row :=
        { id := last + 1, amount := expense.Amount, description := expense.Description,
          category := expense.Category, date := expense.Date.Format,
          payment_method := expense.PaymentMethod, notes := expense.Notes }
      ({ db with expenses := db.expenses ++ [row], seq := last + 1 }, none)

/-- The sort key `ORDER BY date DESC, id DESC`: `a` may stand before `b`. -/
def rowBefore (a b : Row) : Bool :=
  textLt b.date.data a.date.data || (a.date == b.date && decide (b.id ≤ a.id))

/-- The rows in the order of `ORDER BY date DESC, id DESC`. -/
def orderBy (rows : List Row) : List Row :=
  rows.insertionSort (fun a b => rowBefore a b = true)

/-- The record that `rows.Scan` and `time.Parse` build from a row whose date parses. -/
def Row.toExpense (r : Row) (t : Time) : Expense :=
  { ID := r.id, Amount := r.amount, Description := r.description, Category := r.category,
    Date := t, PaymentMethod := r.payment_method, Notes := r.notes }

/-- The record that a stored row stands for: its columns, with the date text read by
`time.Parse` (a placeholder date when the text does not parse, in which case the scan
fails and no record is built). -/
def Row.record (r : Row) : Expense :=
  r.toExpense ((Parse r.date).getD ⟨0, 1, 1⟩)

/-- One turn of the loop `for rows.Next()`: scan the row, parse its date. -/
def scanRow (r : Row) : Except Err Expense :=
  match Parse r.date with
  | none => .error Err.parseDate
  | some t => .ok (r.toExpense t)

/-- The loop `for rows.Next()`: the records in result order, or the first error. -/
def scanRows : List Row → Except Err (List Expense)
  | [] => .ok []
  | r :: rs =>
    match scanRow r with
    | .error e => .error e
    | .ok x =>
      match scanRows rs with
      | .error e => .error e
      | .ok xs => .ok (x :: xs)

/-- The query `SELECT ... FROM expenses WHERE cond ORDER BY date DESC, id DESC`, scanned. -/
def selectExpenses (db : DB) (cond : Row → Bool) : Except Err (List Expense) :=
  scanRows (orderBy (db.expenses.filter cond))

/-- Go function `GetAllExpenses`: every row. -/
def GetAllExpenses (db : DB) : Except Err (List Expense) :=
  selectExpenses db (fun _ => true)

/-- Go function `GetExpensesByCategory`: `WHERE category = ?`. -/
def GetExpensesByCategory (db : DB) (category : String) : Except Err (List Expense) :=
  selectExpenses db (fun r => r.category == category)

/-- Go function `GetExpensesByDateRange`: `WHERE date >= ? AND date <= ?` on the formatted bounds. -/
def GetExpensesByDateRange (db : DB) (startDate endDate : Time) : Except Err (List Expense) :=
  selectExpenses db (fun r => textLe startDate.Format r.date && textLe r.date endDate.Format)

/-- One character of a LIKE pattern against one character of the text: equal, or equal
up to case when both are ASCII. -/
def likeChar (p c : Char) : Bool :=
  p == c || (decide (p.toNat < 128) && decide (c.toNat < 128) && asciiLower p == asciiLower c)

/-- Is `f` true of some suffix of the text? -/
def anySuffix (f : List Char → Bool) : List Char → Bool
  | [] => f []
  | c :: t => f (c :: t) || anySuffix f t

/-- The comparison `patternCompare` of SQLite for LIKE without ESCAPE, on the code points
of the pattern and of the text: `%` stands for any run of characters, `_` for any single
character, any other character for itself up to ASCII case. -/
def patternCompare : List Char → List Char → Bool
  | [], s => s.isEmpty
  | p :: ps, s =>
    if p = '%' then anySuffix (patternCompare ps) s
    else
      match s with
      | [] => false
      | c :: t => (p == '_' || likeChar p c) && patternCompare ps t

/-- The character NUL, which ends a C string. -/
def nul : Char := Char.ofNat 0

/-- One code point as `sqlite3Utf8Read` returns it: U+FFFE and U+FFFF are read as U+FFFD. -/
def utf8Read (c : Char) : Char :=
  if c.toNat = 0xFFFE ∨ c.toNat = 0xFFFF then Char.ofNat 0xFFFD else c

/-- The part of a text before its first NUL character. -/
def beforeNul (s : String) : List Char := s.data.takeWhile (fun c => !(c == nul))

/-- The code points that LIKE reads from a text value: SQLite hands the value over as a
C string, so the reading stops before the first NUL character. -/
def likeText (s : String) : List Char := (beforeNul s).map utf8Read

/-- The SQL operator `text LIKE pattern` on two text values. -/
def like (pattern text : String) : Bool := patternCompare (likeText pattern) (likeText text)

/-- The limit `SQLITE_MAX_LIKE_PATTERN_LENGTH` of SQLite, in bytes. -/
def maxLikePatternLength : Nat := 50000

/-- Go function `SearchExpenses`: `WHERE description LIKE ? OR notes LIKE ?` with the pattern
`"%" + searchTerm + "%"`.  LIKE raises "LIKE or GLOB pattern too complex" on the first row
it is evaluated on when the pattern is longer than the limit, and `db.Query` returns that
error; on an empty table LIKE is not evaluated. -/
def SearchExpenses (db : DB) (searchTerm : String) : Except Err (List Expense) :=
  let searchPattern := "%" ++ searchTerm ++ "%"
  if maxLikePatternLength < searchPattern.utf8ByteSize ∧ db.expenses ≠ [] then .error Err.search
  else selectExpenses db (fun r => like searchPattern r.description || like searchPattern r.notes)

/-- Go function `DeleteExpense`: `DELETE FROM expenses WHERE id = ?`, then the not-found error when
`RowsAffected` is 0. -/
def DeleteExpense (db : DB) (id : Int) : DB × Option Err :=
  let rowsAffected := (db.expenses.filter (fun r => r.id == id)).length
  let db1 := { db with expenses := db.expenses.filter (fun r => !(r.id == id)) }
  if rowsAffected = 0 then (db1, some (Err.notFound id)) else (db1, none)

/-- The part of the SQLite library that the repository does not fix: the `float64` that
the aggregate `SUM` returns for the REAL values of a group, given in the order in which
the rows are visited. -/
structure Engine where
  sum : List Float64 → Float64

/-- The aggregate `SUM` of the older versions of SQLite: the values are added one after the
other to a `double` that starts at 0. -/
def sumPlain (xs : List Float64) : Float64 := xs.foldl Float64.add Float64.zero

/-- The accumulator of `SUM` in the recent versions of SQLite (compensated summation came
with version 3.43): the running sum and the error term of the Kahan-Babuska-Neumaier
summation. -/
structure SumCtx where
  rSum : Float64
  rErr : Float64

/-- The step `kahanBabuskaNeumaierStep` of SQLite: add `r` to the running sum and the
rounding error of that addition to the error term. -/
def kahanBabuskaNeumaierStep (p : SumCtx) (r : Float64) : SumCtx :=
  let s := p.rSum
  let t := Float64.add s r
  if Float64.gt (Float64.abs s) (Float64.abs r) then
    { rSum := t, rErr := Float64.add p.rErr (Float64.add (Float64.sub s t) r) }
  else
    { rSum := t, rErr := Float64.add p.rErr (Float64.add (Float64.sub r t) s) }

/-- The aggregate `SUM` of the recent versions of SQLite: compensated summation; the result
is the running sum plus the error term, and the running sum alone when the error term is
not a finite number. -/
def sumCompensated (xs : List Float64) : Float64 :=
  let p := xs.foldl kahanBabuskaNeumaierStep { rSum := Float64.zero, rErr := Float64.zero }
  match p.rErr with
  | .fin e => Float64.add p.rSum (.fin e)
  | _ => p.rSum

/-- An engine that adds plainly. -/
def plainEngine : Engine := { sum := sumPlain }

/-- An engine that adds with compensation. -/
def compensatedEngine : Engine := { sum := sumCompensated }

/-- The SQL aggregate `SUM`: NULL (`none`) over no rows, and NULL when the result is NaN. -/
def sqlSum (eng : Engine) (xs : List Float64) : Option Float64 :=
  if xs = [] then none
  else if eng.sum xs = Float64.nan then none
  else some (eng.sum xs)

/-- Go function `GetTotalExpensesForMonth`: the bounds are the first day of the month and that day
plus one month minus one day; `COALESCE(SUM(amount), 0)` over the rows between them, which
the scan of the table visits in rowid order.  The result is `none` where the model of
`time.Date` does not reach. -/
def GetTotalExpensesForMonth (eng : Engine) (db : DB) (year : Int) (month : Int) :
    Option (Except Err Float64) :=
  match Date year month 1 with
  | none => none
  | some startDate =>
    match (startDate.AddDate 0 1 0).bind (fun next => next.AddDate 0 0 (-1)) with
    | none => none
    | some endDate =>
      let rows := db.expenses.filter
        (fun r => textLe startDate.Format r.date && textLe r.date endDate.Format)
      some (.ok ((sqlSum eng (rows.map (fun r => r.amount))).getD Float64.zero))

/-- A Go `map[string]float64` as an association list with one entry per key. -/
abbrev Totals := List (String × Float64)

/-- The assignment `totals[k] = v`. -/
def Totals.set (m : Totals) (k : String) (v : Float64) : Totals :=
  (k, v) :: m.filter (fun e => !(e.1 == k))

/-- The lookup `totals[k]`, `none` when the key is absent. -/
def Totals.get (m : Totals) (k : String) : Option Float64 :=
  (m.find? (fun e => e.1 == k)).map (fun e => e.2)

/-- The rows of `SELECT category, SUM(amount) FROM expenses GROUP BY category`: one per
distinct category.  The rows of the table are sorted by category for the grouping; the
sort is stable, so the rows of one group are visited in rowid order. -/
def categoryRows (eng : Engine) (db : DB) : List (String × Option Float64) :=
  (db.expenses.map (fun r => r.category)).dedup.map
    (fun c => (c, sqlSum eng ((db.expenses.filter (fun r => r.category == c)).map (fun r => r.amount))))

/-- The loop of `GetCategoryTotals`: scan each row into the map; a NULL total cannot be
scanned into a `float64`. -/
def scanTotals : List (String × Option Float64) → Totals → Except Err Totals
  | [], m => .ok m
  | (_, none) :: _, _ => .error Err.scanTotal
  | (c, some t) :: rest, m => scanTotals rest (m.set c t)

/-- Go function `GetCategoryTotals`: the rows of the GROUP BY query scanned into a map. -/
def GetCategoryTotals (eng : Engine) (db : DB) : Except Err Totals :=
  scanTotals (categoryRows eng db) []

/-! ## The shell (`cli.go`) -/

/-- Go function `GetUserInput`: the next line, trimmed; the empty string when the input is exhausted. -/
def GetUserInput (input : List String) : String × List String :=
  match input with
  | [] => ("", [])
  | line :: rest => (TrimSpace line, rest)

/-- Go function `AddExpensePrompt`: reads the six fields in order and stops at the first invalid one.
Returns the expense or the error, and the input that is left. -/
def AddExpensePrompt (rt : Runtime) (input : List String) : Except Err Expense × List String :=
  let (amountStr, in1) := GetUserInput input
  match ParseFloat rt amountStr with
  | none => (.error Err.invalidAmount, in1)
  | some amount =>
    if Float64.le amount Float64.zero then (.error Err.invalidAmount, in1)
    else
      let (description, in2) := GetUserInput in1
      if description = "" then (.error Err.emptyDescription, in2)
      else
        let (category, in3) := GetUserInput in2
        if category = "" then (.error Err.emptyCategory, in3)
        else
          let (dateStr, in4) := GetUserInput in3
          let date : Option Time := if dateStr = "" then some rt.now else Parse dateStr
          match date with
          | none => (.error Err.invalidDate, in4)
          | some d =>
            let (pm, in5) := GetUserInput in4
            let paymentMethod := ToUpper rt (TrimSpace pm)
            if paymentMethod ≠ "CASH" ∧ paymentMethod ≠ "UPI" then (.error Err.invalidPayment, in5)
            else
              let (notes, in6) := GetUserInput in5
              (.ok { ID := 0, Amount := amount, Description := description, Category := category,
                     Date := d, PaymentMethod := paymentMethod, Notes := notes }, in6)

/-! ## Histories of store calls -/

/-- A mutating call on the store. -/
inductive Op where
  | add (e : Expense)
  | delete (id : Int)
  | setBudget (v : Float64)

/-- The database after one call (whether it failed or not). -/
def Op.apply (db : DB) : Op → DB
  | .add e => (AddExpense db e).1
  | .delete id => (DeleteExpense db id).1
  | .setBudget v => (SetMonthlyBudget db v).1

/-- The database after a sequence of calls. -/
def run (db : DB) (ops : List Op) : DB := ops.foldl Op.apply db

/-- The ids that the calls of `ops` assigned, starting from `db`: one for every
`AddExpense` that succeeded, whether or not its record was deleted later. -/
def assignedIds : DB → List Op → List Int
  | _, [] => []
  | db, .add e :: ops =>
    if (AddExpense db e).2 = none then (AddExpense db e).1.seq :: assignedIds (AddExpense db e).1 ops
    else assignedIds (AddExpense db e).1 ops
  | db, op :: ops => assignedIds (op.apply db) ops

/-- Every date handed to `AddExpense` by `ops` is one the layout can write and read back. -/
def Op.DateValid : Op → Prop
  | .add e => e.Date.Valid
  | _ => True

/-! ## Well-formedness of a database -/

/-- The PRIMARY KEY constraint of `expenses`: no two rows share an id. -/
def DB.PrimaryKey (db : DB) : Prop := (db.expenses.map (fun r => r.id)).Nodup

/-- Every stored date is a text that `time.Parse` accepts. -/
def DB.DatesParse (db : DB) : Prop := ∀ r ∈ db.expenses, (Parse r.date).isSome = true

/-- Every stored amount satisfies the invariant `amount > 0` of the data model. -/
def DB.AmountsPositive (db : DB) : Prop :=
  ∀ r ∈ db.expenses, Float64.gt r.amount Float64.zero = true

instance (op : Op) : Decidable op.DateValid := by
  cases op <;> unfold Op.DateValid <;> infer_instance

instance (db : DB) : Decidable db.PrimaryKey := by
  unfold DB.PrimaryKey; infer_instance

instance (db : DB) : Decidable db.DatesParse := by
  unfold DB.DatesParse; infer_instance

instance (db : DB) : Decidable db.AmountsPositive := by
  unfold DB.AmountsPositive; infer_instance

/-- The rows of `expenses` stand in rowid order, the order in which a scan of the table
visits them: the ids increase along the list. -/
def DB.RowidOrder (db : DB) : Prop := (db.expenses.map (fun r => r.id)).Sorted (· < ·)

instance (db : DB) : Decidable db.RowidOrder := by
  unfold DB.RowidOrder List.Sorted; infer_instance

/-- No total of a category is NULL: the `SUM` of the engine over the amounts of each
category that occurs is a number or an infinity, not NaN. -/
def DB.TotalsDefined (eng : Engine) (db : DB) : Prop :=
  ∀ r ∈ db.expenses,
    eng.sum ((db.expenses.filter (fun x => x.category == r.category)).map (fun x => x.amount))
      ≠ Float64.nan

instance (eng : Engine) (db : DB) : Decidable (db.TotalsDefined eng) := by
  unfold DB.TotalsDefined; infer_instance

/-- Records put in the order of their ids, smallest first. -/
def idOrder (l : List Expense) : List Expense := l.insertionSort (fun a b => a.ID ≤ b.ID)

/-- The sum that Go computes over a list of amounts in a loop `total += amount`, as
`DisplayStatistics` does over the records of `GetAllExpenses`. -/
def goSum (xs : List Float64) : Float64 := xs.foldl Float64.add Float64.zero

/-- The exact sum of the finite values of a list (NaN and the infinities count as 0). -/
def exactSum : List Float64 → ℚ
  | [] => 0
  | .fin q :: xs => q + exactSum xs
  | _ :: xs => exactSum xs

/-! ## Sample data -/

/-- The record of the round-trip property of the specification: 250.50 for Food, paid
by UPI on 2024-03-15. -/
def sampleFood : Expense :=
  { ID := 0, Amount := .fin (501 / 2), Description := "Morning coffee", Category := "Food",
    Date := ⟨2024, 3, 15⟩, PaymentMethod := "UPI", Notes := "" }

/-- A record of the category `food` in lower case, dated in another month, with a note. -/
def sampleBus : Expense :=
  { ID := 0, Amount := .fin 40, Description := "Bus", Category := "food",
    Date := ⟨2024, 2, 29⟩, PaymentMethod := "CASH", Notes := "bought coffee" }

/-- A database with history: three inserts, the last record deleted again. -/
def sampleDB : DB :=
  run InitDB [.add sampleFood, .add sampleBus, .add sampleFood, .delete 3]

/-- A record of the category `Food` dated 2024-03-15 with the given amount and description. -/
def sampleAmount (amount : Float64) (description : String) : Expense :=
  { ID := 0, Amount := amount, Description := description, Category := "Food",
    Date := ⟨2024, 3, 15⟩, PaymentMethod := "CASH", Notes := "" }

/-- The amounts 0.10, 0.10 and 0.40 (the binary64 values nearest to them), entered in this
order on the same day. -/
def sampleCents : DB :=
  run InitDB [.add (sampleAmount (Float64.nearest (1 / 10)) "Tea"),
    .add (sampleAmount (Float64.nearest (1 / 10)) "Gum"),
    .add (sampleAmount (Float64.nearest (4 / 10)) "Bag")]

/-- A description with a NUL character in it: `ab`, NUL, `cd`. -/
def sampleNulText : String := String.mk ['a', 'b', nul, 'c', 'd']

/-- A database with one record whose description holds a NUL character and one whose
description holds U+FFFF. -/
def sampleOdd : DB :=
  run InitDB [.add (sampleAmount (.fin 1) sampleNulText),
    .add (sampleAmount (.fin 2) (String.mk ['x', Char.ofNat 0xFFFF, 'y']))]

/-- A search term of 49999 bytes: the letter `a` that many times. -/
def sampleLongTerm : String := String.mk (List.replicate 49999 'a')

/-! ## Substrings -/

/-- The text contains the term, character for character. -/
def containsText (text term : String) : Prop := term.data <:+: text.data

/-- The text, read up to its first NUL character, contains the term character for
character. -/
def containsBeforeNul (text term : String) : Prop := term.data <:+: beforeNul text

/-- The text contains the term as LIKE reads them: up to the first NUL character, with
ASCII upper-case letters read as lower case and U+FFFE, U+FFFF read as U+FFFD. -/
def containsFold (text term : String) : Prop :=
  (likeText term).map asciiLower <:+: (likeText text).map asciiLower

instance (text term : String) : Decidable (containsText text term) := by
  unfold containsText; infer_instance

instance (text term : String) : Decidable (containsFold text term) := by
  unfold containsFold; infer_instance

instance (text term : String) : Decidable (containsBeforeNul text term) := by
  unfold containsBeforeNul; infer_instance

/-! ## The ADD branch of the main loop (`main.go`) -/

/-- What the ADD branch prints: `DisplayError`, `DisplayWarning` with the amount of the
overage that the message reports, or `DisplaySuccess`. -/
inductive Output where
  | error (err : Err)
  | warning (overAmount : Float64)
  | success
  deriving DecidableEq

/-- The budget check of the ADD branch: the warnings printed before the insert (none or
one), for the clock reading `now` of `main`; `none` where the model of `time.Date` does
not reach. -/
def budgetWarning (eng : Engine) (now : Time) (db : DB) (expense : Expense) : Option (List Output) :=
  match GetMonthlyBudget db with
  | .error _ => some []
  | .ok budget =>
    if Float64.gt budget Float64.zero then
      match GetTotalExpensesForMonth eng db now.year now.month with
      | none => none
      | some (.error _) => some []
      | some (.ok currentMonthTotal) =>
        if expense.Date.year = now.year ∧ expense.Date.month = now.month then
          let newTotal := Float64.add currentMonthTotal expense.Amount
          if Float64.gt newTotal budget then
            let overAmount := Float64.sub newTotal budget
            some [Output.warning overAmount]
          else some []
        else some []
    else some []

/-- The ADD branch after the prompt has returned an expense: the budget check, then
`AddExpense` in every case, then the error or the success message. -/
def addChecked (eng : Engine) (now : Time) (db : DB) (expense : Expense) :
    Option (DB × List Output) :=
  match budgetWarning eng now db expense with
  | none => none
  | some warnings =>
    let r := AddExpense db expense
    match r.2 with
    | some err => some (r.1, warnings ++ [Output.error err])
    | none => some (r.1, warnings ++ [Output.success])

/-- The ADD branch of the loop of `main` (`case "1"`): on a prompt error the error is shown
and the store is not called (`continue`). Returns the database, what was printed and the
input that is left. -/
def addCommand (eng : Engine) (rt : Runtime) (db : DB) (input : List String) :
    Option (DB × List Output × List String) :=
  match AddExpensePrompt rt input with
  | (.error err, rest) => some (db, [Output.error err], rest)
  | (.ok expense, rest) =>
    match addChecked eng rt.now db expense with
    | none => none
    | some r => some (r.1, r.2, rest)

/-- The amounts that the month query sums: those of the stored rows dated in month `m` of
`year`, in rowid order. -/
def monthAmounts (db : DB) (year : Int) (m : Nat) : List Float64 :=
  (db.expenses.filter (fun r => r.record.Date.InMonth year m)).map (fun r => r.amount)

/-- A budget of 100.07 and a total of 50.01 in March 2024. -/
def sampleTightDB : DB :=
  run InitDB [.setBudget (Float64.nearest (10007 / 100)),
    .add { ID := 0, Amount := Float64.nearest (5001 / 100), Description := "Book",
           Category := "Home", Date := ⟨2024, 3, 5⟩, PaymentMethod := "UPI", Notes := "" }]

/-- An expense of 50.06 dated in March 2024. -/
def sampleTight : Expense :=
  { ID := 0, Amount := Float64.nearest (5006 / 100), Description := "Pen", Category := "Home",
    Date := ⟨2024, 3, 20⟩, PaymentMethod := "CASH", Notes := "" }

/-- The example of the specification: a budget of 1000 and a total of 900 in March 2024. -/
def sampleBudgetDB : DB :=
  run InitDB [.setBudget (.fin 1000),
    .add { ID := 0, Amount := .fin 900, Description := "Rent", Category := "Home",
           Date := ⟨2024, 3, 5⟩, PaymentMethod := "UPI", Notes := "" }]

/-- An expense of 150 dated in March 2024. -/
def sampleOver : Expense :=
  { ID := 0, Amount := .fin 150, Description := "Shoes", Category := "Clothes",
    Date := ⟨2024, 3, 20⟩, PaymentMethod := "CASH", Notes := "" }

/-! ## Lemmas: byte-wise order of texts -/

theorem digitChar_toNat : ∀ k, k < 10 → (digitChar k).toNat = 48 + k := by decide

theorem textLt_irrefl (a : List Char) : textLt a a = false := by
  induction a with
  | nil => rfl
  | cons c t ih => simp [textLt, ih]

theorem char_eq_of_toNat {a b : Char} (h1 : ¬ a.toNat < b.toNat) (h2 : ¬ b.toNat < a.toNat) :
    a = b := by
  apply Char.ext
  apply UInt32.ext
  have : a.toNat = b.toNat := by omega
  exact this

theorem textLt_trans : ∀ (a b c : List Char),
    textLt a b = true → textLt b c = true → textLt a c = true
  | [], [], _, h, _ => by simp [textLt] at h
  | [], _ :: _, [], _, h => by simp [textLt] at h
  | [], _ :: _, _ :: _, _, _ => by simp [textLt]
  | _ :: _, [], _, h, _ => by simp [textLt] at h
  | _ :: _, _ :: _, [], _, h => by simp [textLt] at h
  | x :: a, y :: b, z :: c, h1, h2 => by
    simp only [textLt] at h1 h2 ⊢
    split_ifs at h1 h2 ⊢ <;> first | rfl | omega | exact textLt_trans a b c h1 h2

theorem textLt_connex : ∀ (a b : List Char), textLt a b = false → textLt b a = false → a = b
  | [], [], _, _ => rfl
  | [], _ :: _, h, _ => by simp [textLt] at h
  | _ :: _, [], _, h => by simp [textLt] at h
  | x :: a, y :: b, h1, h2 => by
    simp only [textLt] at h1 h2
    split_ifs at h1 h2 with p q
    have := char_eq_of_toNat p q
    rw [this, textLt_connex a b h1 h2]

theorem textLt_asymm (a b : List Char) (h : textLt a b = true) : textLt b a = false := by
  cases hb : textLt b a with
  | false => rfl
  | true =>
    have := textLt_trans a b a h hb
    rw [textLt_irrefl] at this
    exact absurd this (by simp)

/-! ## Lemmas: the layout `2006-01-02` -/

theorem padDigits_four (n : Nat) (h : n < 10000) :
    padDigits 4 n = [digitChar (n / 1000), digitChar (n / 100 % 10), digitChar (n / 10 % 10),
      digitChar (n % 10)] := by
  have h0 : n / 10 / 10 / 10 / 10 = 0 := by omega
  have h1 : n / 10 / 10 / 10 % 10 = n / 1000 := by omega
  have h2 : n / 10 / 10 % 10 = n / 100 % 10 := by omega
  simp [padDigits, leadDigits, h0, h1, h2]

theorem padDigits_two (n : Nat) (h : n < 100) :
    padDigits 2 n = [digitChar (n / 10), digitChar (n % 10)] := by
  have h0 : n / 10 / 10 = 0 := by omega
  have h1 : n / 10 % 10 = n / 10 := by omega
  simp [padDigits, leadDigits, h0, h1]

theorem daysIn_le (m : Nat) (y : Int) (hm : m ≤ 12) : daysIn m y ≤ 31 := by
  unfold daysIn
  split_ifs
  · omega
  · interval_cases m <;> simp [daysBefore]

theorem Format_data (t : Time) (h : t.Valid) :
    t.Format.data =
      [digitChar (t.year.toNat / 1000), digitChar (t.year.toNat / 100 % 10),
       digitChar (t.year.toNat / 10 % 10), digitChar (t.year.toNat % 10), '-',
       digitChar (t.month / 10), digitChar (t.month % 10), '-',
       digitChar (t.day / 10), digitChar (t.day % 10)] := by
  obtain ⟨h0, h1, h2, h3, h4, h5⟩ := h
  have hd := daysIn_le t.month t.year h3
  have e1 : t.year.natAbs = t.year.toNat := by omega
  simp only [Time.Format, appendInt, e1, Int.natAbs_ofNat]
  rw [padDigits_four _ (by omega), padDigits_two _ (by omega), padDigits_two _ (by omega)]
  simp [show ¬ t.year < 0 by omega, show ¬ ((t.month : Int) < 0) by omega,
    show ¬ ((t.day : Int) < 0) by omega]

theorem isDigit_digitChar : ∀ k, k < 10 → isDigit (digitChar k) = true := by decide

theorem digitVal_digitChar : ∀ k, k < 10 → digitVal (digitChar k) = k := by decide

theorem digitVal_lt {c : Char} (h : isDigit c = true) : digitVal c < 10 := by
  simp [isDigit] at h
  unfold digitVal
  omega

theorem digitChar_digitVal {c : Char} (h : isDigit c = true) : digitChar (digitVal c) = c := by
  simp [isDigit] at h
  unfold digitChar digitVal
  rw [show 48 + (c.toNat - 48) = c.toNat by omega]
  exact Char.ofNat_toNat c

theorem Parse_Format (t : Time) (h : t.Valid) : Parse t.Format = some t := by
  have hd := Format_data t h
  obtain ⟨h0, h1, h2, h3, h4, h5⟩ := h
  have hm := daysIn_le t.month t.year h3
  unfold Parse
  rw [hd]
  have e : ((1000 * (t.year.toNat / 1000) + 100 * (t.year.toNat / 100 % 10)
      + 10 * (t.year.toNat / 10 % 10) + t.year.toNat % 10 : Nat) : Int) = t.year := by omega
  have em : 10 * (t.month / 10) + t.month % 10 = t.month := by omega
  have ed : 10 * (t.day / 10) + t.day % 10 = t.day := by omega
  simp only [isDigit_digitChar _ (show t.year.toNat / 1000 < 10 by omega),
    isDigit_digitChar _ (show t.year.toNat / 100 % 10 < 10 by omega),
    isDigit_digitChar _ (show t.year.toNat / 10 % 10 < 10 by omega),
    isDigit_digitChar _ (show t.year.toNat % 10 < 10 by omega),
    isDigit_digitChar _ (show t.month / 10 < 10 by omega),
    isDigit_digitChar _ (show t.month % 10 < 10 by omega),
    isDigit_digitChar _ (show t.day / 10 < 10 by omega),
    isDigit_digitChar _ (show t.day % 10 < 10 by omega),
    digitVal_digitChar _ (show t.year.toNat / 1000 < 10 by omega),
    digitVal_digitChar _ (show t.year.toNat / 100 % 10 < 10 by omega),
    digitVal_digitChar _ (show t.year.toNat / 10 % 10 < 10 by omega),
    digitVal_digitChar _ (show t.year.toNat % 10 < 10 by omega),
    digitVal_digitChar _ (show t.month / 10 < 10 by omega),
    digitVal_digitChar _ (show t.month % 10 < 10 by omega),
    digitVal_digitChar _ (show t.day / 10 < 10 by omega),
    digitVal_digitChar _ (show t.day % 10 < 10 by omega), e, em, ed]
  simp only [show ¬ (t.month = 0 ∨ 12 < t.month) by omega,
    show ¬ (t.day < 1 ∨ daysIn t.month t.year < t.day) by omega, beq_self_eq_true, Bool.and_self,
    if_true, if_false]

theorem Parse_eq_some {s : String} {t : Time} (h : Parse s = some t) :
    t.Valid ∧ s = t.Format := by
  unfold Parse at h
  split at h
  · rename_i y3 y2 y1 y0 s1 m1 m0 s2 d1 d0 hs
    simp only [] at h
    split_ifs at h with hc hmo hda
    simp only [Bool.and_eq_true, beq_iff_eq] at hc
    obtain ⟨⟨⟨⟨⟨⟨⟨⟨⟨c1, c2⟩, c3⟩, c4⟩, c5⟩, c6⟩, c7⟩, c8⟩, c9⟩, c10⟩ := hc
    subst c5 c8
    have b1 := digitVal_lt c1
    have b2 := digitVal_lt c2
    have b3 := digitVal_lt c3
    have b4 := digitVal_lt c4
    have b6 := digitVal_lt c6
    have b7 := digitVal_lt c7
    have b9 := digitVal_lt c9
    have b10 := digitVal_lt c10
    injection h with h
    subst h
    have hv : Time.Valid ⟨((1000 * digitVal y3 + 100 * digitVal y2 + 10 * digitVal y1 + digitVal y0 : Nat) : Int),
        10 * digitVal m1 + digitVal m0, 10 * digitVal d1 + digitVal d0⟩ := by
      refine ⟨?_, ?_, ?_, ?_, ?_, ?_⟩ <;> simp only <;> omega
    refine ⟨hv, ?_⟩
    have hf := Format_data _ hv
    simp only [Int.toNat_ofNat] at hf
    have q1 : (1000 * digitVal y3 + 100 * digitVal y2 + 10 * digitVal y1 + digitVal y0) / 1000 = digitVal y3 := by omega
    have q2 : (1000 * digitVal y3 + 100 * digitVal y2 + 10 * digitVal y1 + digitVal y0) / 100 % 10 = digitVal y2 := by omega
    have q3 : (1000 * digitVal y3 + 100 * digitVal y2 + 10 * digitVal y1 + digitVal y0) / 10 % 10 = digitVal y1 := by omega
    have q4 : (1000 * digitVal y3 + 100 * digitVal y2 + 10 * digitVal y1 + digitVal y0) % 10 = digitVal y0 := by omega
    have q5 : (10 * digitVal m1 + digitVal m0) / 10 = digitVal m1 := by omega
    have q6 : (10 * digitVal m1 + digitVal m0) % 10 = digitVal m0 := by omega
    have q7 : (10 * digitVal d1 + digitVal d0) / 10 = digitVal d1 := by omega
    have q8 : (10 * digitVal d1 + digitVal d0) % 10 = digitVal d0 := by omega
    rw [q1, q2, q3, q4, q5, q6, q7, q8, digitChar_digitVal c1, digitChar_digitVal c2,
      digitChar_digitVal c3, digitChar_digitVal c4, digitChar_digitVal c6, digitChar_digitVal c7,
      digitChar_digitVal c9, digitChar_digitVal c10, ← hs] at hf
    exact String.ext hf.symm
  · exact absurd h (by simp)

theorem textLt_cons (x y : Char) (a b : List Char) :
    textLt (x :: a) (y :: b) = true ↔
      x.toNat < y.toNat ∨ (x.toNat = y.toNat ∧ textLt a b = true) := by
  simp only [textLt]
  split_ifs with p q
  · simp [p]
  · simp; omega
  · have : x.toNat = y.toNat := by omega
    simp [this]

theorem textLt_Format (a b : Time) (ha : a.Valid) (hb : b.Valid) :
    textLt a.Format.data b.Format.data = true ↔ a.Before b := by
  rw [Format_data a ha, Format_data b hb]
  obtain ⟨a0, a1, a2, a3, a4, a5⟩ := ha
  obtain ⟨b0, b1, b2, b3, b4, b5⟩ := hb
  have da := daysIn_le a.month a.year a3
  have db := daysIn_le b.month b.year b3
  simp only [textLt_cons]
  rw [digitChar_toNat _ (show a.year.toNat / 1000 < 10 by omega),
    digitChar_toNat _ (show a.year.toNat / 100 % 10 < 10 by omega),
    digitChar_toNat _ (show a.year.toNat / 10 % 10 < 10 by omega),
    digitChar_toNat _ (show a.year.toNat % 10 < 10 by omega),
    digitChar_toNat _ (show a.month / 10 < 10 by omega),
    digitChar_toNat _ (show a.month % 10 < 10 by omega),
    digitChar_toNat _ (show a.day / 10 < 10 by omega),
    digitChar_toNat _ (show a.day % 10 < 10 by omega),
    digitChar_toNat _ (show b.year.toNat / 1000 < 10 by omega),
    digitChar_toNat _ (show b.year.toNat / 100 % 10 < 10 by omega),
    digitChar_toNat _ (show b.year.toNat / 10 % 10 < 10 by omega),
    digitChar_toNat _ (show b.year.toNat % 10 < 10 by omega),
    digitChar_toNat _ (show b.month / 10 < 10 by omega),
    digitChar_toNat _ (show b.month % 10 < 10 by omega),
    digitChar_toNat _ (show b.day / 10 < 10 by omega),
    digitChar_toNat _ (show b.day % 10 < 10 by omega)]
  simp only [textLt, Bool.false_eq_true, and_false, or_false, lt_self_iff_false, false_or, true_and]
  unfold Time.Before
  omega

theorem Format_inj (a b : Time) (ha : a.Valid) (hb : b.Valid) (h : a.Format = b.Format) :
    a = b := by
  have h1 := Parse_Format a ha
  rw [h, Parse_Format b hb] at h1
  exact (Option.some.inj h1).symm

theorem textLe_Format (a b : Time) (ha : a.Valid) (hb : b.Valid) :
    textLe a.Format b.Format = true ↔ ¬ b.Before a := by
  unfold textLe
  rw [← textLt_Format b a hb ha]
  simp

/-! ## Lemmas: `ORDER BY date DESC, id DESC` and the scan loop -/

theorem rowBefore_iff (a b : Row) :
    rowBefore a b = true ↔
      textLt b.date.data a.date.data = true ∨ (a.date = b.date ∧ b.id ≤ a.id) := by
  simp [rowBefore]

theorem rowBefore_total (a b : Row) : rowBefore a b = true ∨ rowBefore b a = true := by
  rw [rowBefore_iff, rowBefore_iff]
  cases h1 : textLt b.date.data a.date.data with
  | true => exact Or.inl (Or.inl rfl)
  | false =>
    cases h2 : textLt a.date.data b.date.data with
    | true => exact Or.inr (Or.inl rfl)
    | false =>
      have hd : a.date = b.date := String.ext (textLt_connex _ _ h2 h1)
      rcases le_total a.id b.id with h | h
      · exact Or.inr (Or.inr ⟨hd.symm, h⟩)
      · exact Or.inl (Or.inr ⟨hd, h⟩)

theorem rowBefore_trans (a b c : Row) (h1 : rowBefore a b = true) (h2 : rowBefore b c = true) :
    rowBefore a c = true := by
  rw [rowBefore_iff] at h1 h2 ⊢
  rcases h1 with h1 | ⟨e1, i1⟩ <;> rcases h2 with h2 | ⟨e2, i2⟩
  · exact Or.inl (textLt_trans _ _ _ h2 h1)
  · left; rw [← e2]; exact h1
  · left; rw [e1]; exact h2
  · right; exact ⟨e1.trans e2, le_trans i2 i1⟩

instance rowBefore_isTotal : IsTotal Row (fun a b => rowBefore a b = true) := ⟨rowBefore_total⟩

instance rowBefore_isTrans : IsTrans Row (fun a b => rowBefore a b = true) := ⟨rowBefore_trans⟩

theorem orderBy_sorted (l : List Row) : (orderBy l).Sorted (fun a b => rowBefore a b = true) :=
  List.sorted_insertionSort _ l

theorem orderBy_perm (l : List Row) : (orderBy l).Perm l :=
  List.perm_insertionSort _ l

theorem mem_orderBy {l : List Row} {r : Row} : r ∈ orderBy l ↔ r ∈ l :=
  (orderBy_perm l).mem_iff

theorem eq_of_id_eq {l : List Row} (hn : (l.map (fun r => r.id)).Nodup) {a b : Row}
    (ha : a ∈ l) (hb : b ∈ l) (h : a.id = b.id) : a = b :=
  List.inj_on_of_nodup_map hn ha hb h

theorem rowBefore_antisymm {l : List Row} (hn : (l.map (fun r => r.id)).Nodup) {a b : Row}
    (ha : a ∈ l) (hb : b ∈ l) (h1 : rowBefore a b = true) (h2 : rowBefore b a = true) : a = b := by
  rw [rowBefore_iff] at h1 h2
  rcases h1 with h1 | ⟨_, i1⟩
  · rcases h2 with h2 | ⟨e2, _⟩
    · rw [textLt_asymm _ _ h1] at h2; exact absurd h2 (by simp)
    · rw [e2, textLt_irrefl] at h1; exact absurd h1 (by simp)
  · rcases h2 with h2 | ⟨_, i2⟩
    · rename_i e1
      rw [e1, textLt_irrefl] at h2; exact absurd h2 (by simp)
    · exact eq_of_id_eq hn ha hb (le_antisymm i2 i1)

/-- Sorting a selection of the rows gives the selection of the sorted rows. -/
theorem orderBy_filter (l : List Row) (hn : (l.map (fun r => r.id)).Nodup) (p : Row → Bool) :
    orderBy (l.filter p) = (orderBy l).filter p := by
  apply @List.Perm.eq_of_sorted Row (fun a b => rowBefore a b = true)
  · intro a b ha hb h1 h2
    have ha1 : a ∈ l := List.mem_of_mem_filter (mem_orderBy.mp ha)
    have hb1 : b ∈ l := mem_orderBy.mp (List.mem_of_mem_filter hb)
    exact rowBefore_antisymm hn ha1 hb1 h1 h2
  · exact orderBy_sorted _
  · exact (orderBy_sorted l).filter p
  · exact (orderBy_perm _).trans ((orderBy_perm l).filter p).symm

theorem scanRow_ok {r : Row} (h : (Parse r.date).isSome = true) : scanRow r = .ok r.record := by
  unfold scanRow Row.record
  cases hp : Parse r.date with
  | none => rw [hp] at h; exact absurd h (by simp)
  | some t => rfl

theorem scanRows_ok (l : List Row) (h : ∀ r ∈ l, (Parse r.date).isSome = true) :
    scanRows l = .ok (l.map Row.record) := by
  induction l with
  | nil => rfl
  | cons r rs ih =>
    have h1 := scanRow_ok (h r (List.mem_cons_self _ _))
    have h2 := ih (fun x hx => h x (List.mem_cons_of_mem _ hx))
    simp [scanRows, h1, h2]

theorem selectExpenses_ok (db : DB) (hd : db.DatesParse) (cond : Row → Bool) :
    selectExpenses db cond = .ok ((orderBy (db.expenses.filter cond)).map Row.record) := by
  unfold selectExpenses
  apply scanRows_ok
  intro r hr
  exact hd r (List.mem_of_mem_filter (mem_orderBy.mp hr))

theorem GetAllExpenses_ok (db : DB) (hd : db.DatesParse) :
    GetAllExpenses db = .ok ((orderBy db.expenses).map Row.record) := by
  unfold GetAllExpenses
  rw [selectExpenses_ok db hd]
  simp

/-- Under the PRIMARY KEY constraint a filtered query is the filtered full listing. -/
theorem selectExpenses_filter (db : DB) (hd : db.DatesParse) (hk : db.PrimaryKey)
    (cond : Row → Bool) :
    selectExpenses db cond = .ok (((orderBy db.expenses).filter cond).map Row.record) := by
  rw [selectExpenses_ok db hd, orderBy_filter _ hk]

/-! ## Lemmas: the mutating calls and what they preserve -/

theorem largestId_ge {rows : List Row} {r : Row} (h : r ∈ rows) : r.id ≤ largestId rows := by
  induction rows with
  | nil => exact absurd h (List.not_mem_nil _)
  | cons a t ih =>
    simp only [largestId, List.foldr_cons]
    rcases List.mem_cons.mp h with rfl | h1
    · exact le_max_left _ _
    · exact le_trans (ih h1) (le_max_right _ _)

/-- The row that a successful `AddExpense` inserts. -/
theorem AddExpense_ok {db : DB} {e : Expense} (h : (AddExpense db e).2 = none) :
    (AddExpense db e).1 =
      { db with
        expenses := db.expenses ++
          [{ id := max db.seq (largestId db.expenses) + 1, amount := e.Amount,
             description := e.Description, category := e.Category, date := e.Date.Format,
             payment_method := e.PaymentMethod, notes := e.Notes }],
        seq := max db.seq (largestId db.expenses) + 1 } ∧
      e.Amount ≠ Float64.nan ∧ max db.seq (largestId db.expenses) < maxRowid := by
  by_cases h1 : e.Amount = Float64.nan
  · unfold AddExpense at h; rw [if_pos h1] at h; exact absurd h (by simp)
  · by_cases h2 : maxRowid ≤ max db.seq (largestId db.expenses)
    · unfold AddExpense at h; rw [if_neg h1] at h; dsimp only at h; rw [if_pos h2] at h
      exact absurd h (by simp)
    · refine ⟨?_, h1, not_le.mp h2⟩
      unfold AddExpense; rw [if_neg h1]; dsimp only; rw [if_neg h2]

/-- A failed `AddExpense` leaves the database as it was. -/
theorem AddExpense_fail {db : DB} {e : Expense} (h : (AddExpense db e).2 ≠ none) :
    (AddExpense db e).1 = db := by
  by_cases h1 : e.Amount = Float64.nan
  · unfold AddExpense; rw [if_pos h1]
  · by_cases h2 : maxRowid ≤ max db.seq (largestId db.expenses)
    · unfold AddExpense; rw [if_neg h1]; dsimp only; rw [if_pos h2]
    · unfold AddExpense at h; rw [if_neg h1] at h; dsimp only at h; rw [if_neg h2] at h
      exact absurd rfl h

theorem SetMonthlyBudget_expenses (db : DB) (v : Float64) :
    (SetMonthlyBudget db v).1.expenses = db.expenses ∧ (SetMonthlyBudget db v).1.seq = db.seq := by
  unfold SetMonthlyBudget
  split_ifs <;> exact ⟨rfl, rfl⟩

theorem apply_seq_le (db : DB) (op : Op) : db.seq ≤ (op.apply db).seq := by
  cases op with
  | add e =>
    simp only [Op.apply]
    by_cases h : (AddExpense db e).2 = none
    · rw [(AddExpense_ok h).1]
      simp only
      have := le_max_left db.seq (largestId db.expenses)
      omega
    · rw [AddExpense_fail h]
  | delete id => simp [Op.apply, DeleteExpense]; split_ifs <;> simp
  | setBudget v => simp [Op.apply, (SetMonthlyBudget_expenses db v).2]

theorem run_cons (db : DB) (op : Op) (ops : List Op) : run db (op :: ops) = run (op.apply db) ops :=
  rfl

theorem run_seq_le (db : DB) (ops : List Op) : db.seq ≤ (run db ops).seq := by
  induction ops generalizing db with
  | nil => exact le_refl _
  | cons op ops ih => exact le_trans (apply_seq_le db op) (ih (op.apply db))

/-- Every id assigned during a history is at most the final AUTOINCREMENT counter. -/
theorem assignedIds_le_seq (db : DB) (ops : List Op) :
    ∀ i ∈ assignedIds db ops, i ≤ (run db ops).seq := by
  induction ops generalizing db with
  | nil => intro i hi; exact absurd hi (List.not_mem_nil _)
  | cons op ops ih =>
    intro i hi
    rw [run_cons]
    cases op with
    | add e =>
      simp only [assignedIds] at hi
      split_ifs at hi with h
      · rcases List.mem_cons.mp hi with rfl | h1
        · exact run_seq_le _ ops
        · exact ih _ i h1
      · exact ih _ i hi
    | delete id => exact ih _ i hi
    | setBudget v => exact ih _ i hi

theorem apply_PrimaryKey (db : DB) (op : Op) (hk : db.PrimaryKey) : (op.apply db).PrimaryKey := by
  cases op with
  | add e =>
    simp only [Op.apply]
    by_cases h : (AddExpense db e).2 = none
    · rw [(AddExpense_ok h).1]
      unfold DB.PrimaryKey at hk ⊢
      simp only [List.map_append, List.map_cons, List.map_nil]
      refine List.Nodup.append hk (List.nodup_singleton _) ?_
      intro i hi1 hi2
      rw [List.mem_singleton] at hi2
      obtain ⟨r, hr, rfl⟩ := List.mem_map.mp hi1
      have h1 := largestId_ge hr
      have h2 := le_max_right db.seq (largestId db.expenses)
      omega
    · rw [AddExpense_fail h]; exact hk
  | delete id =>
    unfold DB.PrimaryKey at hk ⊢
    simp only [Op.apply, DeleteExpense]
    have : ∀ d : DB × Option Err, d.1.expenses = db.expenses.filter (fun r => !(r.id == id)) →
        (d.1.expenses.map (fun r => r.id)).Nodup := by
      intro d hd
      rw [hd]
      exact (hk.sublist ((List.filter_sublist _).map _))
    apply this
    split_ifs <;> rfl
  | setBudget v =>
    unfold DB.PrimaryKey at hk ⊢
    simp only [Op.apply, (SetMonthlyBudget_expenses db v).1]
    exact hk

theorem apply_DatesParse (db : DB) (op : Op) (hv : op.DateValid) (hd : db.DatesParse) :
    (op.apply db).DatesParse := by
  cases op with
  | add e =>
    simp only [Op.apply]
    by_cases h : (AddExpense db e).2 = none
    · rw [(AddExpense_ok h).1]
      intro r hr
      simp only [List.mem_append, List.mem_singleton] at hr
      rcases hr with hr | rfl
      · exact hd r hr
      · simp only
        rw [Parse_Format e.Date hv]
        rfl
    · rw [AddExpense_fail h]; exact hd
  | delete id =>
    intro r hr
    have : r ∈ db.expenses.filter (fun r => !(r.id == id)) := by
      simp only [Op.apply, DeleteExpense] at hr
      split_ifs at hr <;> exact hr
    exact hd r (List.mem_of_mem_filter this)
  | setBudget v =>
    intro r hr
    simp only [Op.apply, (SetMonthlyBudget_expenses db v).1] at hr
    exact hd r hr

theorem run_PrimaryKey (db : DB) (ops : List Op) (hk : db.PrimaryKey) : (run db ops).PrimaryKey := by
  induction ops generalizing db with
  | nil => exact hk
  | cons op ops ih => exact ih _ (apply_PrimaryKey db op hk)

theorem run_DatesParse (db : DB) (ops : List Op) (hv : ∀ op ∈ ops, op.DateValid)
    (hd : db.DatesParse) : (run db ops).DatesParse := by
  induction ops generalizing db with
  | nil => exact hd
  | cons op ops ih =>
    exact ih _ (fun o ho => hv o (List.mem_cons_of_mem _ ho))
      (apply_DatesParse db op (hv op (List.mem_cons_self _ _)) hd)

theorem InitDB_PrimaryKey : InitDB.PrimaryKey := List.nodup_nil

theorem InitDB_DatesParse : InitDB.DatesParse := fun _ h => absurd h (List.not_mem_nil _)

/-! ## C1: `AddExpense` adds one record under a fresh id -/

/-- C1. After any history of store calls on a new database (dates as the shell produces
them), a successful `AddExpense e` makes `GetAllExpenses` return the previous records and
exactly one more, the record `e` under a new id; that id is greater than every id assigned
earlier in the history, deleted records included, and greater than every id listed before. -/
theorem AddExpense_one_more_fresh_id (ops : List Op) (e : Expense)
    (hops : ∀ op ∈ ops, op.DateValid) (he : e.Date.Valid)
    (hok : (AddExpense (run InitDB ops) e).2 = none) :
    ∃ before after x,
      GetAllExpenses (run InitDB ops) = .ok before ∧
      GetAllExpenses (AddExpense (run InitDB ops) e).1 = .ok after ∧
      after.length = before.length + 1 ∧
      after.Perm (x :: before) ∧
      x = { e with ID := x.ID } ∧
      (∀ i ∈ assignedIds InitDB ops, i < x.ID) ∧
      (∀ y ∈ before, y.ID < x.ID) := by
  have hd := run_DatesParse InitDB ops hops InitDB_DatesParse
  have hd1 : (AddExpense (run InitDB ops) e).1.DatesParse :=
    apply_DatesParse (run InitDB ops) (.add e) he hd
  have hseq := assignedIds_le_seq InitDB ops
  generalize run InitDB ops = db at hd hd1 hseq hok
  obtain ⟨hdb, -, -⟩ := AddExpense_ok hok
  refine ⟨_, _, Row.record
      { id := max db.seq (largestId db.expenses) + 1, amount := e.Amount,
        description := e.Description, category := e.Category, date := e.Date.Format,
        payment_method := e.PaymentMethod, notes := e.Notes },
    GetAllExpenses_ok db hd, GetAllExpenses_ok _ hd1, ?_, ?_, ?_, ?_, ?_⟩
  · rw [hdb]
    simp [(orderBy_perm _).length_eq]
  · rw [hdb]
    simp only
    rw [← List.map_cons]
    apply List.Perm.map
    refine (orderBy_perm _).trans ?_
    refine List.perm_append_singleton _ _ |>.trans ?_
    exact List.Perm.cons _ (orderBy_perm _).symm
  · simp [Row.record, Row.toExpense, Parse_Format e.Date he]
  · intro i hi
    have h1 := hseq i hi
    have h2 := le_max_left db.seq (largestId db.expenses)
    simp only [Row.record, Row.toExpense]
    omega
  · intro y hy
    obtain ⟨r, hr, rfl⟩ := List.mem_map.mp hy
    have h1 := largestId_ge (mem_orderBy.mp hr)
    have h2 := le_max_right db.seq (largestId db.expenses)
    simp only [Row.record, Row.toExpense]
    omega

/-- The theorem of C1 on a history that deleted the record with the largest id. -/
theorem AddExpense_one_more_fresh_id_witness :
    (∀ op ∈ [Op.add sampleFood, Op.add sampleBus, Op.delete 2], op.DateValid) ∧
    sampleFood.Date.Valid ∧
    (AddExpense (run InitDB [Op.add sampleFood, Op.add sampleBus, Op.delete 2]) sampleFood).2
      = none ∧
    ∃ before after x,
      GetAllExpenses (run InitDB [Op.add sampleFood, Op.add sampleBus, Op.delete 2])
        = .ok before ∧
      GetAllExpenses
        (AddExpense (run InitDB [Op.add sampleFood, Op.add sampleBus, Op.delete 2])
          sampleFood).1 = .ok after ∧
      after.length = before.length + 1 ∧
      after.Perm (x :: before) ∧
      x = { sampleFood with ID := x.ID } ∧
      (∀ i ∈ assignedIds InitDB [Op.add sampleFood, Op.add sampleBus, Op.delete 2],
        i < x.ID) ∧
      (∀ y ∈ before, y.ID < x.ID) :=
  ⟨by decide, by decide, by decide,
    AddExpense_one_more_fresh_id _ _ (by decide) (by decide) (by decide)⟩

/-! ## C2: `GetAllExpenses` lists every record once, newest date first -/

theorem record_ID (r : Row) : r.record.ID = r.id := rfl

theorem record_Date {r : Row} {t : Time} (h : Parse r.date = some t) : r.record.Date = t := by
  simp [Row.record, Row.toExpense, h]

/-- For two stored rows whose dates parse, the sort order on the texts is the calendar
order on the dates read back. -/
theorem rowBefore_record {a b : Row} (ha : (Parse a.date).isSome = true)
    (hb : (Parse b.date).isSome = true) (hne : a.id ≠ b.id) (h : rowBefore a b = true) :
    b.record.Date.Before a.record.Date ∨
      (a.record.Date = b.record.Date ∧ b.record.ID < a.record.ID) := by
  obtain ⟨ta, hta⟩ := Option.isSome_iff_exists.mp ha
  obtain ⟨tb, htb⟩ := Option.isSome_iff_exists.mp hb
  rw [record_Date hta, record_Date htb, record_ID, record_ID]
  obtain ⟨va, ea⟩ := Parse_eq_some hta
  obtain ⟨vb, eb⟩ := Parse_eq_some htb
  rw [rowBefore_iff, ea, eb] at h
  rcases h with h | ⟨h1, h2⟩
  · exact Or.inl ((textLt_Format tb ta vb va).mp h)
  · exact Or.inr ⟨Format_inj ta tb va vb h1, lt_of_le_of_ne h2 (Ne.symm hne)⟩

/-- C2. On a database whose rows have distinct ids and dates in the layout `2006-01-02`,
`GetAllExpenses` succeeds, returns every stored record exactly once (a permutation of the
stored records), and the result is ordered by date descending, then id descending: of two
results, in particular two consecutive ones, the earlier has the later date, or the same
date and the greater id. -/
theorem GetAllExpenses_sorted (db : DB) (hk : db.PrimaryKey) (hd : db.DatesParse) :
    ∃ l, GetAllExpenses db = .ok l ∧
      l.Perm (db.expenses.map Row.record) ∧
      l.Chain' (fun a b => b.Date.Before a.Date ∨ (a.Date = b.Date ∧ b.ID < a.ID)) ∧
      l.Pairwise (fun a b => b.Date.Before a.Date ∨ (a.Date = b.Date ∧ b.ID < a.ID)) := by
  have hp : ((orderBy db.expenses).map Row.record).Pairwise
      (fun a b => b.Date.Before a.Date ∨ (a.Date = b.Date ∧ b.ID < a.ID)) := by
    rw [List.pairwise_map]
    have hn : (orderBy db.expenses).Pairwise (fun a b => a.id ≠ b.id) := by
      have : ((orderBy db.expenses).map (fun r => r.id)).Nodup :=
        ((orderBy_perm db.expenses).map _).nodup_iff.mpr hk
      exact (List.pairwise_map.mp this)
    refine ((orderBy_sorted db.expenses).and hn).imp_of_mem ?_
    intro a b ha hb hab
    exact rowBefore_record (hd a (mem_orderBy.mp ha)) (hd b (mem_orderBy.mp hb)) hab.2 hab.1
  exact ⟨_, GetAllExpenses_ok db hd, (orderBy_perm db.expenses).map _, hp.chain', hp⟩

/-- The theorem of C2 on the sample database. -/
theorem GetAllExpenses_sorted_witness :
    sampleDB.PrimaryKey ∧ sampleDB.DatesParse ∧
    ∃ l, GetAllExpenses sampleDB = .ok l ∧
      l.Perm (sampleDB.expenses.map Row.record) ∧
      l.Chain' (fun a b => b.Date.Before a.Date ∨ (a.Date = b.Date ∧ b.ID < a.ID)) ∧
      l.Pairwise (fun a b => b.Date.Before a.Date ∨ (a.Date = b.Date ∧ b.ID < a.ID)) :=
  ⟨by decide, by decide, GetAllExpenses_sorted sampleDB (by decide) (by decide)⟩

/-! ## C3: `DeleteExpense` -/

theorem DeleteExpense_fst (db : DB) (id : Int) :
    (DeleteExpense db id).1 = { db with expenses := db.expenses.filter (fun r => !(r.id == id)) } := by
  unfold DeleteExpense
  dsimp only
  split_ifs <;> rfl

theorem DeleteExpense_snd (db : DB) (id : Int) :
    (DeleteExpense db id).2 =
      if (db.expenses.filter (fun r => r.id == id)).length = 0 then some (Err.notFound id)
      else none := by
  unfold DeleteExpense
  dsimp only
  split_ifs <;> rfl

theorem DeleteExpense_notFound_iff (db : DB) (id : Int) :
    (DeleteExpense db id).2 = some (Err.notFound id) ↔ ∀ r ∈ db.expenses, r.id ≠ id := by
  rw [DeleteExpense_snd]
  split_ifs with h
  · simp only [true_iff]
    intro r hr he
    have : r ∈ db.expenses.filter (fun r => r.id == id) := by simp [List.mem_filter, hr, he]
    rw [List.length_eq_zero.mp h] at this
    exact absurd this (List.not_mem_nil _)
  · simp only [false_iff, not_forall]
    have hne : db.expenses.filter (fun r => r.id == id) ≠ [] := fun e => h (by rw [e]; rfl)
    obtain ⟨r, hr⟩ := List.exists_mem_of_ne_nil _ hne
    rw [List.mem_filter] at hr
    exact ⟨r, hr.1, by simpa using hr.2⟩

theorem filter_id_length {l : List Row} (hn : (l.map (fun r => r.id)).Nodup) {r : Row}
    (hr : r ∈ l) : (l.filter (fun x => x.id == r.id)).length = 1 := by
  induction l with
  | nil => exact absurd hr (List.not_mem_nil _)
  | cons a t ih =>
    rw [List.map_cons, List.nodup_cons] at hn
    rcases List.mem_cons.mp hr with rfl | h1
    · have : t.filter (fun x => x.id == r.id) = [] := by
        rw [List.filter_eq_nil_iff]
        intro x hx he
        exact hn.1 (List.mem_map.mpr ⟨x, hx, by simpa using he⟩)
      simp [List.filter_cons, this]
    · have hne : ¬ a.id = r.id := fun e => hn.1 (List.mem_map.mpr ⟨r, h1, e.symm⟩)
      simp [List.filter_cons, hne, ih hn.2 h1]

theorem filter_length_add (l : List Row) (p : Row → Bool) :
    (l.filter p).length + (l.filter (fun x => !(p x))).length = l.length := by
  induction l with
  | nil => rfl
  | cons a t ih =>
    cases h : p a <;> simp [List.filter_cons, h] <;> omega

/-- C3. `DeleteExpense id` returns the not-found error exactly when no stored record has
that id, and then the database is unchanged.  When a record has the id, the call succeeds,
the listing afterwards is the listing before without that record (exactly one record less,
the others as they were), and deleting the same id again returns not-found. -/
theorem DeleteExpense_spec (db : DB) (id : Int) (hk : db.PrimaryKey) (hd : db.DatesParse) :
    ((DeleteExpense db id).2 = some (Err.notFound id) ↔ ∀ r ∈ db.expenses, r.id ≠ id) ∧
    ((DeleteExpense db id).2 = some (Err.notFound id) → (DeleteExpense db id).1 = db) ∧
    ((∃ r ∈ db.expenses, r.id = id) →
      (DeleteExpense db id).2 = none ∧
      (∃ l, GetAllExpenses db = .ok l ∧
        GetAllExpenses (DeleteExpense db id).1 = .ok (l.filter (fun x => !(x.ID == id))) ∧
        (l.filter (fun x => !(x.ID == id))).length + 1 = l.length) ∧
      (DeleteExpense (DeleteExpense db id).1 id).2 = some (Err.notFound id)) := by
  refine ⟨DeleteExpense_notFound_iff db id, ?_, ?_⟩
  · intro h
    have h1 := (DeleteExpense_notFound_iff db id).mp h
    rw [DeleteExpense_fst]
    have : db.expenses.filter (fun r => !(r.id == id)) = db.expenses := by
      rw [List.filter_eq_self]
      intro r hr
      simpa using h1 r hr
    rw [this]
  · rintro ⟨r, hr, rfl⟩
    have hlen := filter_id_length hk hr
    refine ⟨?_, ?_, ?_⟩
    · rw [DeleteExpense_snd, hlen]; rfl
    · have hd1 : (DeleteExpense db r.id).1.DatesParse := by
        rw [DeleteExpense_fst]
        intro x hx
        exact hd x (List.mem_of_mem_filter hx)
      refine ⟨_, GetAllExpenses_ok db hd, ?_, ?_⟩
      · rw [GetAllExpenses_ok _ hd1, DeleteExpense_fst]
        simp only
        rw [orderBy_filter _ hk, List.filter_map]
        rfl
      · rw [List.filter_map, List.length_map, List.length_map]
        have h1 := filter_length_add (orderBy db.expenses) (fun x => x.id == r.id)
        have h2 := filter_id_length (((orderBy_perm db.expenses).map _).nodup_iff.mpr hk)
          (mem_orderBy.mpr hr)
        have h3 : (Function.comp (fun x : Expense => !(x.ID == r.id)) Row.record)
            = (fun x : Row => !(x.id == r.id)) := rfl
        rw [h3]
        omega
    · rw [DeleteExpense_notFound_iff, DeleteExpense_fst]
      intro x hx
      simp only [List.mem_filter] at hx
      simpa using hx.2

/-- The theorem of C3 on the sample database. -/
theorem DeleteExpense_spec_witness :
    sampleDB.PrimaryKey ∧ sampleDB.DatesParse ∧ (∃ r ∈ sampleDB.expenses, r.id = 2) ∧
    ((DeleteExpense sampleDB 2).2 = some (Err.notFound 2) ↔ ∀ r ∈ sampleDB.expenses, r.id ≠ 2) ∧
    ((DeleteExpense sampleDB 2).2 = some (Err.notFound 2) → (DeleteExpense sampleDB 2).1 = sampleDB) ∧
    ((∃ r ∈ sampleDB.expenses, r.id = 2) →
      (DeleteExpense sampleDB 2).2 = none ∧
      (∃ l, GetAllExpenses sampleDB = .ok l ∧
        GetAllExpenses (DeleteExpense sampleDB 2).1 = .ok (l.filter (fun x => !(x.ID == 2))) ∧
        (l.filter (fun x => !(x.ID == 2))).length + 1 = l.length) ∧
      (DeleteExpense (DeleteExpense sampleDB 2).1 2).2 = some (Err.notFound 2)) :=
  ⟨by decide, by decide, by decide, DeleteExpense_spec sampleDB 2 (by decide) (by decide)⟩

/-! ## Filtered queries are sub-listings of `GetAllExpenses` -/

/-- A query with a WHERE clause returns the listing of `GetAllExpenses` filtered by any
test on records that agrees with the clause on the stored rows. -/
theorem selectExpenses_sublisting (db : DB) (hk : db.PrimaryKey) (hd : db.DatesParse)
    (cond : Row → Bool) (test : Expense → Bool)
    (h : ∀ r ∈ db.expenses, test r.record = cond r) :
    ∃ l, GetAllExpenses db = .ok l ∧ selectExpenses db cond = .ok (l.filter test) := by
  refine ⟨_, GetAllExpenses_ok db hd, ?_⟩
  rw [selectExpenses_filter db hd hk, List.filter_map]
  congr 2
  apply List.filter_congr
  intro r hr
  exact (h r (mem_orderBy.mp hr)).symm

/-! ## C8: `GetExpensesByCategory` -/

/-- C8. `GetExpensesByCategory c` succeeds and returns the records of `GetAllExpenses`, in
the same order, whose category is the string `c` itself (so every result has category `c`
exactly, upper and lower case distinguished); when no stored record has category `c` the
result is the empty list, not an error. -/
theorem GetExpensesByCategory_spec (db : DB) (c : String) (hk : db.PrimaryKey)
    (hd : db.DatesParse) :
    (∃ l, GetAllExpenses db = .ok l ∧
      GetExpensesByCategory db c = .ok (l.filter (fun x => x.Category == c))) ∧
    (∀ res, GetExpensesByCategory db c = .ok res → ∀ x ∈ res, x.Category = c) ∧
    ((∀ r ∈ db.expenses, r.category ≠ c) → GetExpensesByCategory db c = .ok []) := by
  have h1 := selectExpenses_sublisting db hk hd (fun r => r.category == c)
    (fun x => x.Category == c) (fun _ _ => rfl)
  refine ⟨h1, ?_, ?_⟩
  · obtain ⟨l, -, h2⟩ := h1
    intro res hres x hx
    unfold GetExpensesByCategory at hres
    rw [h2] at hres
    injection hres with hres
    rw [← hres, List.mem_filter] at hx
    simpa using hx.2
  · intro hno
    unfold GetExpensesByCategory
    rw [selectExpenses_ok db hd]
    have : db.expenses.filter (fun r => r.category == c) = [] := by
      rw [List.filter_eq_nil_iff]
      intro r hr
      simpa using hno r hr
    rw [this]
    rfl

/-- The theorem of C8 on the sample database, for the category `food` in lower case. -/
theorem GetExpensesByCategory_spec_witness :
    sampleDB.PrimaryKey ∧ sampleDB.DatesParse ∧
    ((∃ l, GetAllExpenses sampleDB = .ok l ∧
      GetExpensesByCategory sampleDB "food" = .ok (l.filter (fun x => x.Category == "food"))) ∧
    (∀ res, GetExpensesByCategory sampleDB "food" = .ok res → ∀ x ∈ res, x.Category = "food") ∧
    ((∀ r ∈ sampleDB.expenses, r.category ≠ "food") →
      GetExpensesByCategory sampleDB "food" = .ok [])) :=
  ⟨by decide, by decide, GetExpensesByCategory_spec sampleDB "food" (by decide) (by decide)⟩

/-! ## C7: `GetExpensesByDateRange` -/

theorem record_of_mem {db : DB} (hd : db.DatesParse) {r : Row} (hr : r ∈ db.expenses) :
    r.record.Date.Valid ∧ r.date = r.record.Date.Format := by
  obtain ⟨t, ht⟩ := Option.isSome_iff_exists.mp (hd r hr)
  rw [record_Date ht]
  exact Parse_eq_some ht

/-- On stored rows the text comparison of the WHERE clause is the calendar comparison. -/
theorem inRange_record {db : DB} (hd : db.DatesParse) (s e : Time) (hs : s.Valid) (he : e.Valid)
    {r : Row} (hr : r ∈ db.expenses) :
    (!(decide (r.record.Date.Before s)) && !(decide (e.Before r.record.Date)))
      = (textLe s.Format r.date && textLe r.date e.Format) := by
  obtain ⟨hv, hf⟩ := record_of_mem hd hr
  have h1 := textLe_Format s r.record.Date hs hv
  have h2 := textLe_Format r.record.Date e hv he
  rw [hf]
  cases ha : textLe s.Format r.record.Date.Format <;>
    cases hb : textLe r.record.Date.Format e.Format <;>
    simp_all

/-- C7. For dates `startDate` and `endDate` of the layout `2006-01-02`,
`GetExpensesByDateRange` returns the records of `GetAllExpenses`, in the same order, whose
date is not before `startDate` and not after `endDate` (both bounds included); the result is
empty when `endDate` is before `startDate`; and after a successful `AddExpense e` with a
date in the range the result contains the record `e` (under its new id). -/
theorem GetExpensesByDateRange_spec (db : DB) (startDate endDate : Time) (hk : db.PrimaryKey)
    (hd : db.DatesParse) (hs : startDate.Valid) (he : endDate.Valid) :
    (∃ l, GetAllExpenses db = .ok l ∧
      GetExpensesByDateRange db startDate endDate =
        .ok (l.filter (fun x => !(decide (x.Date.Before startDate)) && !(decide (endDate.Before x.Date))))) ∧
    (endDate.Before startDate → GetExpensesByDateRange db startDate endDate = .ok []) ∧
    (∀ e : Expense, e.Date.Valid → ¬ e.Date.Before startDate → ¬ endDate.Before e.Date →
      (AddExpense db e).2 = none →
      ∃ res x, GetExpensesByDateRange (AddExpense db e).1 startDate endDate = .ok res ∧
        x ∈ res ∧ x = { e with ID := x.ID }) := by
  have key : ∀ d : DB, d.PrimaryKey → d.DatesParse →
      ∃ l, GetAllExpenses d = .ok l ∧
        GetExpensesByDateRange d startDate endDate =
          .ok (l.filter (fun x => !(decide (x.Date.Before startDate)) && !(decide (endDate.Before x.Date)))) :=
    fun d hk1 hd1 => selectExpenses_sublisting d hk1 hd1 _ _
      (fun r hr => inRange_record hd1 startDate endDate hs he hr)
  refine ⟨key db hk hd, ?_, ?_⟩
  · intro hlt
    obtain ⟨l, -, h2⟩ := key db hk hd
    rw [h2]
    congr 1
    rw [List.filter_eq_nil_iff]
    intro x _
    simp only [Bool.and_eq_true, Bool.not_eq_true', decide_eq_false_iff_not, not_and, not_not]
    intro h1
    unfold Time.Before at h1 hlt ⊢
    omega
  · intro e hev h1 h2 hok
    have hk1 : (AddExpense db e).1.PrimaryKey := apply_PrimaryKey db (.add e) hk
    have hd1 : (AddExpense db e).1.DatesParse := apply_DatesParse db (.add e) hev hd
    obtain ⟨l, hl, hq⟩ := key _ hk1 hd1
    refine ⟨_, Row.record
      { id := max db.seq (largestId db.expenses) + 1, amount := e.Amount,
        description := e.Description, category := e.Category, date := e.Date.Format,
        payment_method := e.PaymentMethod, notes := e.Notes }, hq, ?_, ?_⟩
    · have hx : Row.record
          { id := max db.seq (largestId db.expenses) + 1, amount := e.Amount,
            description := e.Description, category := e.Category, date := e.Date.Format,
            payment_method := e.PaymentMethod, notes := e.Notes } = { e with ID := max db.seq (largestId db.expenses) + 1 } := by
        simp [Row.record, Row.toExpense, Parse_Format e.Date hev]
      rw [List.mem_filter]
      constructor
      · rw [GetAllExpenses_ok _ hd1] at hl
        injection hl with hl
        rw [← hl]
        apply List.mem_map_of_mem
        rw [mem_orderBy, (AddExpense_ok hok).1]
        simp
      · rw [hx]
        simp [h1, h2]
    · simp [Row.record, Row.toExpense, Parse_Format e.Date hev]

/-- The theorem of C7 for the round trip of the specification: the record of 2024-03-15
(250.50, Food, UPI) and the query for 2024-03-01 .. 2024-03-31. -/
theorem GetExpensesByDateRange_spec_witness :
    sampleDB.PrimaryKey ∧ sampleDB.DatesParse ∧
    (⟨2024, 3, 1⟩ : Time).Valid ∧ (⟨2024, 3, 31⟩ : Time).Valid ∧
    sampleFood.Date.Valid ∧ ¬ sampleFood.Date.Before ⟨2024, 3, 1⟩ ∧
    ¬ (⟨2024, 3, 31⟩ : Time).Before sampleFood.Date ∧ (AddExpense sampleDB sampleFood).2 = none ∧
    ∃ res x, GetExpensesByDateRange (AddExpense sampleDB sampleFood).1 ⟨2024, 3, 1⟩ ⟨2024, 3, 31⟩
        = .ok res ∧ x ∈ res ∧ x = { sampleFood with ID := x.ID } :=
  ⟨by decide, by decide, by decide, by decide, by decide, by decide, by decide, by decide,
    (GetExpensesByDateRange_spec sampleDB ⟨2024, 3, 1⟩ ⟨2024, 3, 31⟩ (by decide) (by decide)
      (by decide) (by decide)).2.2 sampleFood (by decide) (by decide) (by decide) (by decide)⟩

/-! ## C4: `GetTotalExpensesForMonth` -/

/-- The month lengths of `daysIn` are those of the Gregorian calendar. -/
theorem daysIn_calendar (m : Nat) (year : Int) (h1 : 1 ≤ m) (h2 : m ≤ 12) :
    daysIn m year =
      if m = 2 then (if year % 4 = 0 ∧ (year % 100 ≠ 0 ∨ year % 400 = 0) then 29 else 28)
      else if m = 4 ∨ m = 6 ∨ m = 9 ∨ m = 11 then 30 else 31 := by
  interval_cases m <;> simp [daysIn, daysBefore, isLeap]

theorem daysIn_pos (m : Nat) (year : Int) (h1 : 1 ≤ m) (h2 : m ≤ 12) : 28 ≤ daysIn m year := by
  rw [daysIn_calendar m year h1 h2]
  split_ifs <;> omega

theorem normMonth_id (year : Int) (m : Nat) (h1 : 1 ≤ m) (h2 : m ≤ 12) :
    normMonth year m = (year, m) := by
  have e2 : (year + ((m : Int) - 1) / 12) = year := by omega
  have e3 : (((m : Int) - 1) % 12).toNat + 1 = m := by omega
  simp only [normMonth, e2, e3]

theorem dateRange_iff (x : Int) : dateRange x = true ↔ -1000000000 ≤ x ∧ x ≤ 1000000000 := by
  simp [dateRange]

/-- Inside its range `Date` is the normalised date. -/
theorem Date_eq (year month day : Int) (hy : dateRange year = true) (hm : dateRange month = true)
    (hd : dateRange day = true) :
    Date year month day =
      some (normDay (day.natAbs + 1) (normMonth year month).1 (normMonth year month).2 day) := by
  unfold Date
  rw [hy, hm, hd]
  rfl

/-- The first bound of the month query is the first day of the month. -/
theorem monthStart (year : Int) (m : Nat) (hy : -999999999 ≤ year ∧ year ≤ 999999999)
    (h1 : 1 ≤ m) (h2 : m ≤ 12) :
    Date year m 1 = some ⟨year, m, 1⟩ := by
  have hd := daysIn_pos m year h1 h2
  rw [Date_eq year m 1 ((dateRange_iff _).mpr (by omega)) ((dateRange_iff _).mpr (by omega))
    (by decide)]
  simp only [normMonth_id year m h1 h2]
  have : (1 : Int).natAbs + 1 = 1 + 1 := rfl
  rw [this, normDay]
  rw [if_neg (by omega), if_neg (by omega)]
  rfl

/-- Day 0 of a month is the last day of the month before. -/
theorem dayZero (year : Int) (m : Nat) (hy : -1000000000 ≤ year ∧ year ≤ 1000000000)
    (h1 : 1 ≤ m) (h2 : m ≤ 12) :
    Date year m 0 = some
      (if m = 1 then ⟨year - 1, 12, daysIn 12 (year - 1)⟩ else ⟨year, m - 1, daysIn (m - 1) year⟩) := by
  rw [Date_eq year m 0 ((dateRange_iff _).mpr hy) ((dateRange_iff _).mpr (by omega)) (by decide)]
  simp only [normMonth_id year m h1 h2]
  have : (0 : Int).natAbs + 1 = 0 + 1 := rfl
  rw [this, normDay]
  rw [if_pos (by omega)]
  simp only [normDay, zero_add, Int.toNat_ofNat]
  split_ifs <;> rfl

/-- The second bound of the month query, the first day plus one month minus one day, is
the last day of the month. -/
theorem monthEnd (year : Int) (m : Nat) (hy : -999999999 ≤ year ∧ year ≤ 999999999)
    (h1 : 1 ≤ m) (h2 : m ≤ 12) :
    ((⟨year, m, 1⟩ : Time).AddDate 0 1 0).bind (fun next => next.AddDate 0 0 (-1))
      = some ⟨year, m, daysIn m year⟩ := by
  simp only [Time.AddDate, add_zero, Nat.cast_one, Int.reduceNeg]
  by_cases h : m = 12
  · subst h
    have e : Date year (((12 : Nat) : Int) + 1) 1 = some ⟨year + 1, 1, 1⟩ := by
      have hn : normMonth year (((12 : Nat) : Int) + 1) = (year + 1, 1) := by
        simp only [normMonth]
        norm_num
      rw [Date_eq _ _ _ ((dateRange_iff _).mpr (by omega)) (by decide) (by decide)]
      simp only [hn]
      have : (1 : Int).natAbs + 1 = 1 + 1 := rfl
      rw [this, normDay]
      have hd := daysIn_pos 1 (year + 1) (by omega) (by omega)
      rw [if_neg (by omega), if_neg (by omega)]
      rfl
    rw [e]
    have e0 : (((1 : Nat) : Int) + -1) = 0 := by norm_num
    simp only [Option.some_bind, e0]
    rw [dayZero (year + 1) 1 (by omega) (by omega) (by omega), if_pos rfl]
    simp
  · have e : Date year ((m : Int) + 1) 1 = some ⟨year, m + 1, 1⟩ := by
      have := monthStart year (m + 1) hy (by omega) (by omega)
      rw [← this]
      simp
    rw [e]
    have e0 : (((1 : Nat) : Int) + -1) = 0 := by norm_num
    simp only [Option.some_bind, e0]
    rw [dayZero year (m + 1) (by omega) (by omega) (by omega), if_neg (by omega)]
    simp


theorem leadDigits_ge (fuel u : Nat) : ∀ c ∈ leadDigits fuel u, 48 ≤ c.toNat := by
  induction fuel generalizing u with
  | zero => intro c hc; exact absurd hc (List.not_mem_nil _)
  | succ k ih =>
    intro c hc
    unfold leadDigits at hc
    split_ifs at hc with h0
    · exact absurd hc (List.not_mem_nil _)
    · rcases List.mem_append.mp hc with h | h
      · exact ih _ c h
      · rw [List.mem_singleton] at h
        rw [h, digitChar_toNat _ (Nat.mod_lt _ (by omega))]
        omega

theorem padDigits_ge (w u : Nat) : ∀ c ∈ padDigits w u, 48 ≤ c.toNat := by
  induction w generalizing u with
  | zero => exact leadDigits_ge u u
  | succ k ih =>
    intro c hc
    unfold padDigits at hc
    rcases List.mem_append.mp hc with h | h
    · exact ih _ c h
    · rw [List.mem_singleton] at h
      rw [h, digitChar_toNat _ (Nat.mod_lt _ (by omega))]
      omega

theorem padDigits_four_long (n : Nat) (h : 10000 ≤ n) : 5 ≤ (padDigits 4 n).length := by
  have hq : n / 10 / 10 / 10 / 10 ≠ 0 := by omega
  obtain ⟨k, hk⟩ := Nat.exists_eq_succ_of_ne_zero hq
  simp only [padDigits, List.length_append, List.length_singleton]
  have : 1 ≤ (leadDigits (n / 10 / 10 / 10 / 10) (n / 10 / 10 / 10 / 10)).length := by
    rw [hk, leadDigits, if_neg (Nat.succ_ne_zero k)]
    simp
  omega

/-- A year above 9999 is written with at least five digits. -/
theorem appendInt_long (y : Int) (h : 9999 < y) :
    ∃ x0 x1 x2 x3 x4 rest, appendInt y 4 = x0 :: x1 :: x2 :: x3 :: x4 :: rest ∧ 48 ≤ x4.toNat := by
  have hn : 10000 ≤ y.natAbs := by omega
  have hl := padDigits_four_long _ hn
  have hg := padDigits_ge 4 y.natAbs
  have ha : appendInt y 4 = padDigits 4 y.natAbs := by
    unfold appendInt
    rw [if_neg (by omega)]
    rfl
  rw [ha]
  match hp : padDigits 4 y.natAbs, hl, hg with
  | x0 :: x1 :: x2 :: x3 :: x4 :: rest, _, hg =>
    exact ⟨x0, x1, x2, x3, x4, rest, rfl, hg x4 (by simp)⟩

theorem textLt_step (c x : Char) (t s e : List Char)
    (h : textLt t s = true ∨ textLt e t = true) :
    textLt (c :: t) (x :: s) = true ∨ textLt (x :: e) (c :: t) = true := by
  rw [textLt_cons, textLt_cons]
  rcases lt_trichotomy c.toNat x.toNat with h1 | h1 | h1
  · exact Or.inl (Or.inl h1)
  · rcases h with h | h
    · exact Or.inl (Or.inr ⟨h1, h⟩)
    · exact Or.inr (Or.inr ⟨h1.symm, h⟩)
  · exact Or.inr (Or.inl h1)

/-- No date of the layout lies, as a text, between two dates of a year outside 0..9999. -/
theorem textLe_outside (y : Int) (hy : y < 0 ∨ 9999 < y) (m1 d1 m2 d2 : Nat) (t : Time)
    (ht : t.Valid) :
    (textLe (Time.Format ⟨y, m1, d1⟩) t.Format && textLe t.Format (Time.Format ⟨y, m2, d2⟩))
      = false := by
  have hf := Format_data t ht
  have hv := ht
  obtain ⟨a0, a1, a2, a3, a4, a5⟩ := hv
  have key : textLt t.Format.data (Time.Format ⟨y, m1, d1⟩).data = true ∨
      textLt (Time.Format ⟨y, m2, d2⟩).data t.Format.data = true := by
    rcases hy with hy | hy
    · right
      rw [hf]
      simp only [Time.Format, appendInt, if_pos hy, List.singleton_append, List.cons_append]
      rw [textLt_cons, digitChar_toNat _ (by omega)]
      left
      have : ('-' : Char).toNat = 45 := rfl
      omega
    · obtain ⟨x0, x1, x2, x3, x4, rest, hx, h4⟩ := appendInt_long y hy
      rw [hf]
      simp only [Time.Format, hx, List.cons_append]
      apply textLt_step
      apply textLt_step
      apply textLt_step
      apply textLt_step
      left
      rw [textLt_cons]
      left
      have : ('-' : Char).toNat = 45 := rfl
      omega
  unfold textLe
  rcases key with h | h <;> simp [h]

/-- On stored rows the text test of the month query is the calendar test, for every year. -/
theorem inMonth_record {db : DB} (hd : db.DatesParse) (year : Int) (m : Nat) (h1 : 1 ≤ m)
    (h2 : m ≤ 12) {r : Row} (hr : r ∈ db.expenses) :
    (!(decide (r.record.Date.Before ⟨year, m, 1⟩)) &&
        !(decide ((⟨year, m, daysIn m year⟩ : Time).Before r.record.Date)))
      = (textLe (Time.Format ⟨year, m, 1⟩) r.date &&
          textLe r.date (Time.Format ⟨year, m, daysIn m year⟩)) := by
  have hp := daysIn_pos m year h1 h2
  have hl := daysIn_le m year h2
  by_cases hy : 0 ≤ year ∧ year ≤ 9999
  · exact inRange_record hd _ _ ⟨hy.1, hy.2, h1, h2, le_refl _, by show 1 ≤ daysIn m year; omega⟩
      ⟨hy.1, hy.2, h1, h2, by show 1 ≤ daysIn m year; omega, le_refl _⟩ hr
  · obtain ⟨hv, hf⟩ := record_of_mem hd hr
    rw [hf, textLe_outside year (by omega) _ _ _ _ _ hv]
    obtain ⟨a0, a1, -⟩ := hv
    simp only [Bool.and_eq_false_imp, Bool.not_eq_true', decide_eq_false_iff_not,
      Bool.not_eq_false', decide_eq_true_eq, Time.Before]
    intro _
    omega

/-! ### Sums of amounts -/

/-- The rounding on known values: 0.1 and 0.3 as binary64, 0.1 + 0.2 = 0.30000000000000004,
ties go to the even significand, values from 2^1024 on overflow, and half of the smallest
subnormal value rounds to 0. -/
theorem nearest_examples :
    Float64.nearest (1 / 10) = .fin (3602879701896397 / 36028797018963968) ∧
    Float64.nearest (3 / 10) = .fin (5404319552844595 / 18014398509481984) ∧
    Float64.add (Float64.nearest (1 / 10)) (Float64.nearest (2 / 10))
      = .fin (1351079888211149 / 4503599627370496) ∧
    Float64.nearest (9007199254740993) = .fin 9007199254740992 ∧
    Float64.nearest (9007199254740995) = .fin 9007199254740996 ∧
    Float64.nearest (2 ^ 1024) = .inf false ∧
    Float64.nearest (-(2 ^ 1024)) = .inf true ∧
    Float64.nearest (1 / 2 ^ 1075) = .fin 0 := by
  refine ⟨by decide!, by decide!, by decide!, by decide!, by decide!, by decide!, by decide!,
    by decide!⟩

theorem add_fin (p q : ℚ) :
    Float64.add (Float64.fin p) (Float64.fin q) = Float64.nearest (p + q) := rfl

theorem nearest_ne_nan (q : ℚ) : Float64.nearest q ≠ Float64.nan := by
  unfold Float64.nearest
  dsimp only
  split_ifs <;> exact Float64.noConfusion

/-- Rounding a value that is not negative gives a value that is not negative. -/
theorem nearest_nonneg (q : ℚ) (h : 0 ≤ q) :
    Float64.nearest q = Float64.inf false ∨ ∃ v : ℚ, 0 ≤ v ∧ Float64.nearest q = Float64.fin v := by
  have hq : ¬ q < 0 := not_lt.mpr h
  unfold Float64.nearest
  dsimp only
  rw [if_neg hq, decide_eq_false hq]
  split_ifs
  · exact Or.inl rfl
  · exact Or.inr ⟨_, Rat.mkRat_nonneg (Int.natCast_nonneg _) _, rfl⟩

/-- Adding amounts that are greater than 0 to a total that is not negative never gives
NaN, nor a negative total. -/
theorem foldl_add_ne_nan (xs : List Float64) (h : ∀ x ∈ xs, Float64.gt x Float64.zero = true)
    (acc : Float64) (hacc : acc = Float64.inf false ∨ ∃ q : ℚ, 0 ≤ q ∧ acc = Float64.fin q) :
    xs.foldl Float64.add acc = Float64.inf false ∨
      ∃ q : ℚ, 0 ≤ q ∧ xs.foldl Float64.add acc = Float64.fin q := by
  induction xs generalizing acc with
  | nil => exact hacc
  | cons x t ih =>
    rw [List.foldl_cons]
    apply ih (fun y hy => h y (List.mem_cons_of_mem _ hy))
    have hx := h x (List.mem_cons_self _ _)
    cases x with
    | nan => simp [Float64.gt, Float64.lt, Float64.zero] at hx
    | fin p =>
      simp only [Float64.gt, Float64.lt, Float64.zero, decide_eq_true_eq] at hx
      rcases hacc with rfl | ⟨q, hq, rfl⟩
      · exact Or.inl rfl
      · rw [add_fin]
        exact nearest_nonneg (q + p) (by linarith)
    | inf b =>
      cases b with
      | true => simp [Float64.gt, Float64.lt, Float64.zero] at hx
      | false =>
        rcases hacc with rfl | ⟨q, _, rfl⟩
        · exact Or.inl rfl
        · exact Or.inl rfl

/-- The plain sum of amounts greater than 0 is not NaN. -/
theorem sumPlain_ne_nan (xs : List Float64) (h : ∀ x ∈ xs, Float64.gt x Float64.zero = true) :
    sumPlain xs ≠ Float64.nan := by
  unfold sumPlain
  rcases foldl_add_ne_nan xs h Float64.zero (Or.inr ⟨0, le_refl _, rfl⟩) with h3 | ⟨q, _, h3⟩ <;>
    · rw [h3]
      exact Float64.noConfusion

/-- The running sum of the compensated summation is the plain sum. -/
theorem kahan_rSum (xs : List Float64) (p : SumCtx) :
    (xs.foldl kahanBabuskaNeumaierStep p).rSum = xs.foldl Float64.add p.rSum := by
  induction xs generalizing p with
  | nil => rfl
  | cons x t ih =>
    rw [List.foldl_cons, List.foldl_cons, ih]
    congr 1
    unfold kahanBabuskaNeumaierStep
    dsimp only
    split_ifs <;> rfl

/-- The compensated sum of amounts greater than 0 is not NaN. -/
theorem sumCompensated_ne_nan (xs : List Float64)
    (h : ∀ x ∈ xs, Float64.gt x Float64.zero = true) : sumCompensated xs ≠ Float64.nan := by
  have hs := kahan_rSum xs { rSum := Float64.zero, rErr := Float64.zero }
  have hp := foldl_add_ne_nan xs h Float64.zero (Or.inr ⟨0, le_refl _, rfl⟩)
  unfold sumCompensated
  dsimp only
  rw [hs]
  split
  · rename_i e _
    rcases hp with h3 | ⟨q, _, h3⟩
    · rw [h3]; exact Float64.noConfusion
    · rw [h3, add_fin]; exact nearest_ne_nan _
  · rcases hp with h3 | ⟨q, _, h3⟩ <;>
      · rw [h3]
        exact Float64.noConfusion

/-- With amounts greater than 0 no total of a category is NULL, whether the engine adds
plainly or with compensation. -/
theorem TotalsDefined_of_positive (db : DB) (ha : db.AmountsPositive) :
    db.TotalsDefined plainEngine ∧ db.TotalsDefined compensatedEngine := by
  have hpos : ∀ c : String, ∀ x ∈ (db.expenses.filter (fun x => x.category == c)).map
      (fun x => x.amount), Float64.gt x Float64.zero = true := by
    intro c x hx
    obtain ⟨r, hr, rfl⟩ := List.mem_map.mp hx
    exact ha r (List.mem_of_mem_filter hr)
  exact ⟨fun r _ => sumPlain_ne_nan _ (hpos r.category),
    fun r _ => sumCompensated_ne_nan _ (hpos r.category)⟩

instance idLe_isTotal : IsTotal Expense (fun a b => a.ID ≤ b.ID) := ⟨fun a b => le_total a.ID b.ID⟩

instance idLe_isTrans : IsTrans Expense (fun a b => a.ID ≤ b.ID) :=
  ⟨fun _ _ _ h1 h2 => le_trans h1 h2⟩

/-- Rows in rowid order have distinct ids. -/
theorem RowidOrder_PrimaryKey {db : DB} (hr : db.RowidOrder) : db.PrimaryKey :=
  List.Sorted.nodup hr

/-- The records of the listing of `GetAllExpenses` that pass a test, put in id order, are
the stored records that pass the test, in the order of the table. -/
theorem idOrder_listing (db : DB) (hr : db.RowidOrder) (p : Expense → Bool) :
    idOrder (((orderBy db.expenses).map Row.record).filter p)
      = (db.expenses.filter (fun r => p r.record)).map Row.record := by
  have hperm : (((orderBy db.expenses).map Row.record).filter p).Perm
      ((db.expenses.filter (fun r => p r.record)).map Row.record) := by
    rw [List.filter_map]
    exact ((orderBy_perm db.expenses).filter _).map _
  apply @List.Perm.eq_of_sorted Expense (fun a b => a.ID ≤ b.ID)
  · intro a b ha hb h1 h2
    have ha1 : a ∈ (db.expenses.filter (fun r => p r.record)).map Row.record :=
      hperm.mem_iff.mp ((List.perm_insertionSort _ _).mem_iff.mp ha)
    obtain ⟨ra, hra, rfl⟩ := List.mem_map.mp ha1
    obtain ⟨rb, hrb, rfl⟩ := List.mem_map.mp hb
    have : ra = rb := eq_of_id_eq (RowidOrder_PrimaryKey hr) (List.mem_of_mem_filter hra)
      (List.mem_of_mem_filter hrb) (le_antisymm h1 h2)
    rw [this]
  · exact List.sorted_insertionSort _ _
  · have h1 : db.expenses.Pairwise (fun a b => a.id < b.id) := List.pairwise_map.mp hr
    have h2 : (db.expenses.filter (fun r => p r.record)).Pairwise (fun a b => a.id ≤ b.id) :=
      (h1.filter (fun r => p r.record)).imp (fun h => le_of_lt h)
    exact List.pairwise_map.mpr h2
  · exact (List.perm_insertionSort _ _).trans hperm

/-- The month query sums the amounts of the rows dated in the month, in rowid order. -/
theorem GetTotalExpensesForMonth_eq (eng : Engine) (db : DB) (year : Int) (m : Nat)
    (hy : -999999999 ≤ year ∧ year ≤ 999999999) (h1 : 1 ≤ m) (h2 : m ≤ 12) (hd : db.DatesParse) :
    GetTotalExpensesForMonth eng db year m =
      some (.ok ((sqlSum eng (monthAmounts db year m)).getD Float64.zero)) := by
  unfold GetTotalExpensesForMonth
  rw [monthStart year m hy h1 h2]
  dsimp only
  rw [monthEnd year m hy h1 h2]
  dsimp only
  congr 5
  apply List.filter_congr
  intro r hr
  exact (inMonth_record hd year m h1 h2 hr).symm

/-- The amounts of the month in rowid order are those of the listing of `GetAllExpenses`,
restricted to the month and put in id order. -/
theorem monthAmounts_listing (db : DB) (hr : db.RowidOrder) (year : Int) (m : Nat) :
    monthAmounts db year m =
      (idOrder (((orderBy db.expenses).map Row.record).filter
        (fun x => x.Date.InMonth year m))).map (fun x => x.Amount) := by
  rw [idOrder_listing db hr, List.map_map]
  rfl

/-- C4, amended. For every year from -999999999 to 999999999 and every month 1..12 the
bounds computed by `GetTotalExpensesForMonth` are the first day of the month and its last
calendar day (28, 29, 30 or 31 days by the Gregorian rules).  On a database with dates in
the layout `2006-01-02` the result is `COALESCE(SUM(amount), 0)` as the SQLite engine
computes it in `float64` over the amounts of exactly the records of `GetAllExpenses` dated
from the first to the last day of the month, visited in the order of their ids; it is 0
when no record is dated in the month. -/
theorem GetTotalExpensesForMonth_spec (eng : Engine) (db : DB) (year : Int) (m : Nat)
    (hy : -999999999 ≤ year ∧ year ≤ 999999999) (h1 : 1 ≤ m) (h2 : m ≤ 12)
    (hd : db.DatesParse) (hr : db.RowidOrder) :
    Date year m 1 = some ⟨year, m, 1⟩ ∧
    ((⟨year, m, 1⟩ : Time).AddDate 0 1 0).bind (fun next => next.AddDate 0 0 (-1))
      = some ⟨year, m, daysIn m year⟩ ∧
    (daysIn m year =
      if m = 2 then (if year % 4 = 0 ∧ (year % 100 ≠ 0 ∨ year % 400 = 0) then 29 else 28)
      else if m = 4 ∨ m = 6 ∨ m = 9 ∨ m = 11 then 30 else 31) ∧
    ∃ l, GetAllExpenses db = .ok l ∧
      GetTotalExpensesForMonth eng db year m =
        some (.ok ((sqlSum eng ((idOrder (l.filter (fun x => x.Date.InMonth year m))).map
          (fun x => x.Amount))).getD Float64.zero)) ∧
      ((∀ x ∈ l, x.Date.Before ⟨year, m, 1⟩ ∨ (⟨year, m, daysIn m year⟩ : Time).Before x.Date) →
        GetTotalExpensesForMonth eng db year m = some (.ok Float64.zero)) := by
  refine ⟨monthStart year m hy h1 h2, monthEnd year m hy h1 h2, daysIn_calendar m year h1 h2, _,
    GetAllExpenses_ok db hd, ?_⟩
  have hsum := GetTotalExpensesForMonth_eq eng db year m hy h1 h2 hd
  rw [monthAmounts_listing db hr year m] at hsum
  refine ⟨hsum, ?_⟩
  intro hno
  rw [hsum]
  have : ((orderBy db.expenses).map Row.record).filter (fun x => x.Date.InMonth year m) = [] := by
    rw [List.filter_eq_nil_iff]
    intro x hx
    rcases hno x hx with h | h <;> simp [Time.InMonth, h]
  rw [this]
  rfl

/-- The theorem of C4 on the sample database, for March 2024 and the engine that adds
plainly. -/
theorem GetTotalExpensesForMonth_spec_witness :
    (-999999999 ≤ (2024 : Int) ∧ (2024 : Int) ≤ 999999999) ∧ 1 ≤ 3 ∧ 3 ≤ 12 ∧
    sampleDB.DatesParse ∧ sampleDB.RowidOrder ∧
    ∃ l, GetAllExpenses sampleDB = .ok l ∧
      GetTotalExpensesForMonth plainEngine sampleDB 2024 (3 : Nat) =
        some (.ok ((sqlSum plainEngine ((idOrder (l.filter (fun x => x.Date.InMonth 2024 3))).map
          (fun x => x.Amount))).getD Float64.zero)) ∧
      ((∀ x ∈ l, x.Date.Before ⟨2024, 3, 1⟩ ∨ (⟨2024, 3, daysIn 3 2024⟩ : Time).Before x.Date) →
        GetTotalExpensesForMonth plainEngine sampleDB 2024 (3 : Nat) = some (.ok Float64.zero)) :=
  ⟨by decide, by decide, by decide, by decide, by decide,
    (GetTotalExpensesForMonth_spec plainEngine sampleDB 2024 3 (by decide) (by decide) (by decide)
      (by decide) (by decide)).2.2.2⟩

/-- C4 as stated fails on the database with the amounts 0.10, 0.10 and 0.40 entered in this
order on 2024-03-15.  The total of March 2024 is 0.6000000000000001, whether the engine adds
plainly or with compensation.  That is not the sum of the three stored amounts (which no
`float64` equals), not the `float64` sum taken over the records in the order in which
`GetAllExpenses` returns them (0.6), and not the `float64` nearest to the decimal sum 0.60. -/
theorem GetTotalExpensesForMonth_not_sum :
    ∃ l, GetAllExpenses sampleCents = .ok l ∧
      (∀ x ∈ l, x.Date.InMonth 2024 3 = true) ∧
      l.map (fun x => x.Amount) =
        [Float64.nearest (4 / 10), Float64.nearest (1 / 10), Float64.nearest (1 / 10)] ∧
      GetTotalExpensesForMonth plainEngine sampleCents 2024 (3 : Nat)
        = some (.ok (.fin (1351079888211149 / 2251799813685248))) ∧
      GetTotalExpensesForMonth compensatedEngine sampleCents 2024 (3 : Nat)
        = some (.ok (.fin (1351079888211149 / 2251799813685248))) ∧
      exactSum (l.map (fun x => x.Amount)) ≠ 1351079888211149 / 2251799813685248 ∧
      goSum (l.map (fun x => x.Amount)) ≠ .fin (1351079888211149 / 2251799813685248) ∧
      Float64.nearest (1 / 10 + 1 / 10 + 4 / 10) ≠ .fin (1351079888211149 / 2251799813685248) :=
  ⟨(orderBy sampleCents.expenses).map Row.record, by decide!, by decide!, by decide!, by decide!,
    by decide!, by decide!, by decide!, by decide!⟩

/-! ## C5: `GetCategoryTotals` -/

theorem sqlSum_some (eng : Engine) (xs : List Float64) (hne : xs ≠ [])
    (h : eng.sum xs ≠ Float64.nan) : sqlSum eng xs = some (eng.sum xs) := by
  unfold sqlSum
  rw [if_neg hne, if_neg h]

/-- Scanning rows with distinct new keys and non-NULL totals adds them to the map. -/
theorem scanTotals_ok (f : String → Float64) (ks : List String) (hn : ks.Nodup) (m : Totals)
    (hm : ∀ k ∈ ks, ∀ e ∈ m, e.1 ≠ k) :
    scanTotals (ks.map (fun c => (c, some (f c)))) m
      = .ok ((ks.map (fun c => (c, f c))).reverse ++ m) := by
  induction ks generalizing m with
  | nil => rfl
  | cons k t ih =>
    rw [List.nodup_cons] at hn
    simp only [List.map_cons, scanTotals]
    have hset : Totals.set m k (f k) = (k, f k) :: m := by
      unfold Totals.set
      congr 1
      rw [List.filter_eq_self]
      intro e he
      simpa using hm k (List.mem_cons_self _ _) e he
    rw [hset, ih hn.2]
    · simp
    · intro k2 hk2 e he
      rcases List.mem_cons.mp he with rfl | he1
      · intro h
        have hk : k = k2 := h
        rw [hk] at hn
        exact hn.1 hk2
      · exact hm k2 (List.mem_cons_of_mem _ hk2) e he1

theorem Totals_get_of_mem (m : Totals) (hn : (m.map (fun e => e.1)).Nodup) (k : String)
    (v : Float64) (h : (k, v) ∈ m) : Totals.get m k = some v := by
  induction m with
  | nil => exact absurd h (List.not_mem_nil _)
  | cons e t ih =>
    rw [List.map_cons, List.nodup_cons] at hn
    unfold Totals.get
    rcases List.mem_cons.mp h with rfl | h1
    · simp [List.find?_cons]
    · have hne : ¬ e.1 = k := fun he => hn.1 (List.mem_map.mpr ⟨(k, v), h1, he.symm⟩)
      have hb : (e.1 == k) = false := by simpa using hne
      simp only [List.find?_cons, hb]
      exact ih hn.2 h1

/-- C5, amended. On a database with dates in the layout on which no total of a category is
NULL (as with amounts greater than 0), `GetCategoryTotals` succeeds; the keys of the
returned map are exactly the category strings that occur among the records of
`GetAllExpenses`, each once (strings that differ in case are different keys, a category that
does not occur is not a key), and the value of each key `c` is `SUM(amount)` as the SQLite
engine computes it in `float64` over the amounts of the records whose category is `c`,
visited in the order of their ids. -/
theorem GetCategoryTotals_spec (eng : Engine) (db : DB) (hd : db.DatesParse) (hr : db.RowidOrder)
    (ht : db.TotalsDefined eng) :
    ∃ totals l, GetCategoryTotals eng db = .ok totals ∧ GetAllExpenses db = .ok l ∧
      (totals.map (fun e => e.1)).Nodup ∧
      (∀ c, c ∈ totals.map (fun e => e.1) ↔ ∃ x ∈ l, x.Category = c) ∧
      (∀ c, c ∈ totals.map (fun e => e.1) →
        totals.get c = some (eng.sum ((idOrder (l.filter (fun x => x.Category == c))).map
          (fun x => x.Amount)))) := by
  let f : String → Float64 := fun c =>
    eng.sum ((db.expenses.filter (fun r => r.category == c)).map (fun r => r.amount))
  let ks := (db.expenses.map (fun r => r.category)).dedup
  have hks : ks.Nodup := List.nodup_dedup _
  have hmem : ∀ c, c ∈ ks ↔ ∃ r ∈ db.expenses, r.category = c := by
    intro c
    simp only [ks, List.mem_dedup, List.mem_map]
  have hrows : categoryRows eng db = ks.map (fun c => (c, some (f c))) := by
    unfold categoryRows
    apply List.map_congr_left
    intro c hc
    obtain ⟨r, hr1, hrc⟩ := (hmem c).mp hc
    congr 1
    apply sqlSum_some
    · intro hnil
      have : r.amount ∈ (db.expenses.filter (fun r => r.category == c)).map (fun r => r.amount) :=
        List.mem_map_of_mem _ (List.mem_filter.mpr ⟨hr1, by simpa using hrc⟩)
      rw [hnil] at this
      exact absurd this (List.not_mem_nil _)
    · have := ht r hr1
      rw [hrc] at this
      exact this
  have hscan : GetCategoryTotals eng db = .ok ((ks.map (fun c => (c, f c))).reverse) := by
    unfold GetCategoryTotals
    rw [hrows, scanTotals_ok f ks hks [] (fun _ _ _ he => absurd he (List.not_mem_nil _))]
    simp
  have hkeys : ((ks.map (fun c => (c, f c))).reverse).map (fun e => e.1) = ks.reverse := by
    rw [List.map_reverse, List.map_map]
    congr 1
    exact List.map_id _
  have hsum : ∀ c, f c = eng.sum
      ((idOrder (((orderBy db.expenses).map Row.record).filter (fun x => x.Category == c))).map
        (fun x => x.Amount)) := by
    intro c
    rw [idOrder_listing db hr, List.map_map]
    rfl
  refine ⟨_, _, hscan, GetAllExpenses_ok db hd, ?_, ?_, ?_⟩
  · rw [hkeys]
    exact List.nodup_reverse.mpr hks
  · intro c
    rw [hkeys, List.mem_reverse, hmem]
    constructor
    · rintro ⟨r, hr1, hrc⟩
      exact ⟨r.record, List.mem_map_of_mem _ (mem_orderBy.mpr hr1), hrc⟩
    · rintro ⟨x, hx, hxc⟩
      obtain ⟨r, hr1, rfl⟩ := List.mem_map.mp hx
      exact ⟨r, mem_orderBy.mp hr1, hxc⟩
  · intro c hc
    rw [hkeys, List.mem_reverse] at hc
    rw [← hsum c]
    apply Totals_get_of_mem
    · rw [hkeys]
      exact List.nodup_reverse.mpr hks
    · rw [List.mem_reverse]
      exact List.mem_map.mpr ⟨c, hc, rfl⟩

/-- The theorem of C5 on the sample database (categories `Food` and `food`), for the engine
that adds plainly. -/
theorem GetCategoryTotals_spec_witness :
    sampleDB.DatesParse ∧ sampleDB.RowidOrder ∧ sampleDB.TotalsDefined plainEngine ∧
    ∃ totals l, GetCategoryTotals plainEngine sampleDB = .ok totals ∧
      GetAllExpenses sampleDB = .ok l ∧
      (totals.map (fun e => e.1)).Nodup ∧
      (∀ c, c ∈ totals.map (fun e => e.1) ↔ ∃ x ∈ l, x.Category = c) ∧
      (∀ c, c ∈ totals.map (fun e => e.1) →
        totals.get c = some (plainEngine.sum ((idOrder (l.filter (fun x => x.Category == c))).map
          (fun x => x.Amount)))) :=
  ⟨by decide, by decide, by decide!,
    GetCategoryTotals_spec plainEngine sampleDB (by decide) (by decide) (by decide!)⟩

/-- C5 as stated fails on the database with the amounts 0.10, 0.10 and 0.40 entered in this
order for the category `Food`.  The total of `Food` is 0.6000000000000001, whether the
engine adds plainly or with compensation.  That is not the sum of the three stored amounts
(which no `float64` equals), not the `float64` sum taken over the records in the order in
which `GetAllExpenses` returns them (0.6), and not the `float64` nearest to the decimal sum
0.60. -/
theorem GetCategoryTotals_not_sum :
    ∃ l, GetAllExpenses sampleCents = .ok l ∧
      (∀ x ∈ l, x.Category = "Food") ∧
      l.map (fun x => x.Amount) =
        [Float64.nearest (4 / 10), Float64.nearest (1 / 10), Float64.nearest (1 / 10)] ∧
      GetCategoryTotals plainEngine sampleCents
        = .ok [("Food", .fin (1351079888211149 / 2251799813685248))] ∧
      GetCategoryTotals compensatedEngine sampleCents
        = .ok [("Food", .fin (1351079888211149 / 2251799813685248))] ∧
      exactSum (l.map (fun x => x.Amount)) ≠ 1351079888211149 / 2251799813685248 ∧
      goSum (l.map (fun x => x.Amount)) ≠ .fin (1351079888211149 / 2251799813685248) ∧
      Float64.nearest (1 / 10 + 1 / 10 + 4 / 10) ≠ .fin (1351079888211149 / 2251799813685248) :=
  ⟨(orderBy sampleCents.expenses).map Row.record, by decide!, by decide!, by decide!, by decide!,
    by decide!, by decide!, by decide!, by decide!⟩

/-! ## C6: `SearchExpenses` and the LIKE operator -/

theorem ofNat_upper_toNat : ∀ n, n < 91 → 65 ≤ n → (Char.ofNat (n + 32)).toNat = n + 32 := by
  decide

theorem asciiLower_toNat (c : Char) :
    (asciiLower c).toNat = if 65 ≤ c.toNat ∧ c.toNat ≤ 90 then c.toNat + 32 else c.toNat := by
  unfold asciiLower
  split_ifs with h
  · exact ofNat_upper_toNat _ (by omega) h.1
  · rfl

theorem Char.eq_of_toNat_eq {a b : Char} (h : a.toNat = b.toNat) : a = b :=
  char_eq_of_toNat (by omega) (by omega)

/-- Two characters match under LIKE exactly when they are equal up to ASCII case. -/
theorem likeChar_iff (p c : Char) : likeChar p c = true ↔ asciiLower p = asciiLower c := by
  unfold likeChar
  simp only [Bool.or_eq_true, beq_iff_eq, Bool.and_eq_true, decide_eq_true_eq]
  constructor
  · rintro (h | ⟨_, h⟩)
    · rw [h]
    · exact h
  · intro h
    have h1 := congrArg Char.toNat h
    rw [asciiLower_toNat, asciiLower_toNat] at h1
    by_cases hp : p.toNat < 128 ∧ c.toNat < 128
    · exact Or.inr ⟨hp, h⟩
    · left
      apply Char.eq_of_toNat_eq
      split_ifs at h1 <;> omega

theorem anySuffix_iff (f : List Char → Bool) (s : List Char) :
    anySuffix f s = true ↔ ∃ pre suf, s = pre ++ suf ∧ f suf = true := by
  induction s with
  | nil =>
    simp only [anySuffix]
    constructor
    · intro h; exact ⟨[], [], rfl, h⟩
    · rintro ⟨pre, suf, h, hf⟩
      have := List.append_eq_nil.mp h.symm
      rw [this.2] at hf
      exact hf
  | cons c t ih =>
    simp only [anySuffix, Bool.or_eq_true, ih]
    constructor
    · rintro (h | ⟨pre, suf, h, hf⟩)
      · exact ⟨[], c :: t, rfl, h⟩
      · exact ⟨c :: pre, suf, by rw [h]; rfl, hf⟩
    · rintro ⟨pre, suf, h, hf⟩
      cases pre with
      | nil => left; rw [h]; exact hf
      | cons a pre =>
        right
        rw [List.cons_append, List.cons.injEq] at h
        exact ⟨pre, suf, h.2, hf⟩

theorem patternCompare_percent (ps s : List Char) :
    patternCompare ('%' :: ps) s = anySuffix (patternCompare ps) s := by
  rw [patternCompare.eq_def]
  simp only [if_pos]

theorem patternCompare_cons_nil (p : Char) (ps : List Char) (hp : p ≠ '%') :
    patternCompare (p :: ps) [] = false := by
  rw [patternCompare.eq_def]
  simp only [if_neg hp]

theorem patternCompare_cons_cons (p : Char) (ps : List Char) (c : Char) (t : List Char)
    (hp : p ≠ '%') :
    patternCompare (p :: ps) (c :: t) = ((p == '_' || likeChar p c) && patternCompare ps t) := by
  rw [patternCompare.eq_def]
  simp only [if_neg hp]

/-- A pattern without wildcards, followed by `%`, matches the texts that begin with the
pattern up to ASCII case. -/
theorem patternCompare_term (term : List Char) (hw : ∀ c ∈ term, c ≠ '%' ∧ c ≠ '_')
    (s : List Char) :
    patternCompare (term ++ ['%']) s = true ↔
      ∃ mid post, s = mid ++ post ∧ term.map asciiLower = mid.map asciiLower := by
  induction term generalizing s with
  | nil =>
    simp only [List.nil_append, patternCompare_percent, anySuffix_iff]
    constructor
    · intro _
      exact ⟨[], s, rfl, rfl⟩
    · intro _
      exact ⟨s, [], by simp, rfl⟩
  | cons p ps ih =>
    obtain ⟨hp1, hp2⟩ := hw p (List.mem_cons_self _ _)
    have hw2 : ∀ c ∈ ps, c ≠ '%' ∧ c ≠ '_' := fun c hc => hw c (List.mem_cons_of_mem _ hc)
    cases s with
    | nil =>
      rw [List.cons_append, patternCompare_cons_nil _ _ hp1]
      simp only [Bool.false_eq_true, false_iff, not_exists, not_and]
      intro mid post h hm
      have := List.append_eq_nil.mp h.symm
      rw [this.1] at hm
      simp at hm
    | cons c t =>
      rw [List.cons_append, patternCompare_cons_cons _ _ _ _ hp1]
      have hu : (p == '_') = false := by simpa using hp2
      simp only [hu, Bool.false_or, Bool.and_eq_true, likeChar_iff, ih hw2]
      constructor
      · rintro ⟨hc, mid, post, ht, hm⟩
        exact ⟨c :: mid, post, by rw [ht]; rfl, by simp [hc, hm]⟩
      · rintro ⟨mid, post, ht, hm⟩
        cases mid with
        | nil => simp at hm
        | cons a mid =>
          rw [List.cons_append, List.cons.injEq] at ht
          simp only [List.map_cons, List.cons.injEq] at hm
          exact ⟨by rw [ht.1]; exact hm.1, mid, post, ht.2, hm.2⟩

/-- Reading a code point does not turn it into a wildcard. -/
theorem utf8Read_ne (c : Char) (h : c ≠ '%' ∧ c ≠ '_') : utf8Read c ≠ '%' ∧ utf8Read c ≠ '_' := by
  unfold utf8Read
  split_ifs
  · exact ⟨by decide, by decide⟩
  · exact h

/-- A term without NUL is read whole. -/
theorem likeText_term (term : String) (hn : ∀ c ∈ term.data, c ≠ nul) :
    likeText term = term.data.map utf8Read := by
  unfold likeText beforeNul
  congr 1
  rw [List.takeWhile_eq_self_iff]
  intro c hc
  simpa using hn c hc

/-- The pattern built from a term without NUL is read whole: `%`, the term, `%`. -/
theorem likeText_pattern (term : String) (hn : ∀ c ∈ term.data, c ≠ nul) :
    likeText ("%" ++ term ++ "%") = '%' :: (term.data.map utf8Read ++ ['%']) := by
  have hd : ("%" ++ term ++ "%").data = '%' :: (term.data ++ ['%']) := by
    simp only [String.data_append]
    rfl
  unfold likeText beforeNul
  rw [hd]
  have ht : (('%' :: (term.data ++ ['%'])).takeWhile (fun c => !(c == nul)))
      = '%' :: (term.data ++ ['%']) := by
    rw [List.takeWhile_eq_self_iff]
    intro c hc
    rcases List.mem_cons.mp hc with rfl | hc
    · decide
    · rcases List.mem_append.mp hc with hc | hc
      · simpa using hn c hc
      · rw [List.mem_singleton] at hc
        rw [hc]
        decide
  rw [ht]
  simp only [List.map_cons, List.map_append, List.map_nil]
  rfl

/-- The pattern `% term %` for a term without wildcards and without NUL matches the texts
that contain the term as LIKE reads them. -/
theorem like_pattern (term text : String)
    (hw : ∀ c ∈ term.data, c ≠ '%' ∧ c ≠ '_' ∧ c ≠ nul) :
    like ("%" ++ term ++ "%") text = decide (containsFold text term) := by
  have hn : ∀ c ∈ term.data, c ≠ nul := fun c hc => (hw c hc).2.2
  have hw1 : ∀ c ∈ term.data.map utf8Read, c ≠ '%' ∧ c ≠ '_' := by
    intro c hc
    obtain ⟨d, hd, rfl⟩ := List.mem_map.mp hc
    exact utf8Read_ne d ⟨(hw d hd).1, (hw d hd).2.1⟩
  unfold like
  rw [likeText_pattern term hn, patternCompare_percent]
  apply Bool.eq_iff_iff.mpr
  rw [anySuffix_iff, decide_eq_true_eq]
  unfold containsFold
  rw [likeText_term term hn]
  constructor
  · rintro ⟨pre, suf, hs, hl⟩
    obtain ⟨mid, post, hsuf, hm⟩ := (patternCompare_term _ hw1 suf).mp hl
    refine ⟨pre.map asciiLower, post.map asciiLower, ?_⟩
    rw [hs, hsuf, hm]
    simp
  · rintro ⟨a, b, hab⟩
    obtain ⟨s12, s3, h1, h2, -⟩ := List.map_eq_append_iff.mp hab.symm
    obtain ⟨s1, s2, h3, -, h5⟩ := List.map_eq_append_iff.mp h2
    refine ⟨s1, s2 ++ s3, by rw [h1, h3, List.append_assoc], ?_⟩
    exact (patternCompare_term _ hw1 _).mpr ⟨s2, s3, rfl, h5.symm⟩

/-- A text that contains the term before its first NUL contains it as LIKE reads them. -/
theorem containsFold_of_containsBeforeNul {text term : String} (hn : ∀ c ∈ term.data, c ≠ nul)
    (h : containsBeforeNul text term) : containsFold text term := by
  obtain ⟨a, b, hab⟩ := h
  unfold containsFold
  rw [likeText_term term hn]
  unfold likeText
  exact ⟨(a.map utf8Read).map asciiLower, (b.map utf8Read).map asciiLower, by rw [← hab]; simp⟩

theorem containsFold_empty (text : String) : containsFold text "" :=
  List.nil_infix

/-- The pattern is two bytes longer than the term. -/
theorem pattern_size (term : String) :
    ("%" ++ term ++ "%").utf8ByteSize = term.utf8ByteSize + 2 := by
  have hd : ("%" ++ term ++ "%").data = '%' :: (term.data ++ ['%']) := by
    simp only [String.data_append]
    rfl
  have h1 : ("%" ++ term ++ "%").utf8ByteSize = String.utf8Len ("%" ++ term ++ "%").data := rfl
  have h2 : term.utf8ByteSize = String.utf8Len term.data := rfl
  have h3 : Char.utf8Size '%' = 1 := by decide
  rw [h1, h2, hd]
  simp only [String.utf8Len_cons, String.utf8Len_append, String.utf8Len_nil, h3]

theorem utf8Len_replicate (n : Nat) : String.utf8Len (List.replicate n 'a') = n := by
  induction n with
  | zero => rfl
  | succ k ih =>
    have h3 : Char.utf8Size 'a' = 1 := by decide
    rw [List.replicate_succ, String.utf8Len_cons, ih, h3]

/-- C6 as stated fails.  On the sample database the term `_` returns both records although
no description and no note contains the character `_`, and the term `COFFEE` returns both
records although no description and no note contains `COFFEE` in upper case.  A term of
49999 bytes makes the call fail.  On the database with the description `ab`, NUL, `cd` the
term `cd` returns nothing although that description contains `cd`, and the term U+FFFE
returns the record whose description holds U+FFFF although no description and no note
contains U+FFFE. -/
theorem SearchExpenses_not_substring :
    (∃ l, GetAllExpenses sampleDB = .ok l ∧ l.length = 2 ∧
      SearchExpenses sampleDB "_" = .ok l ∧
      l.filter (fun x => decide (containsText x.Description "_") ||
        decide (containsText x.Notes "_")) = []) ∧
    (∃ l, GetAllExpenses sampleDB = .ok l ∧ l.length = 2 ∧
      SearchExpenses sampleDB "COFFEE" = .ok l ∧
      l.filter (fun x => decide (containsText x.Description "COFFEE") ||
        decide (containsText x.Notes "COFFEE")) = []) ∧
    SearchExpenses sampleDB sampleLongTerm = .error Err.search ∧
    (∃ l x, GetAllExpenses sampleOdd = .ok l ∧ x ∈ l ∧ containsText x.Description "cd" ∧
      SearchExpenses sampleOdd "cd" = .ok []) ∧
    (∃ l x, GetAllExpenses sampleOdd = .ok l ∧
      SearchExpenses sampleOdd (String.mk [Char.ofNat 0xFFFE]) = .ok [x] ∧
      l.filter (fun x => decide (containsText x.Description (String.mk [Char.ofNat 0xFFFE])) ||
        decide (containsText x.Notes (String.mk [Char.ofNat 0xFFFE]))) = []) := by
  refine ⟨⟨(orderBy sampleDB.expenses).map Row.record, by decide!, by decide, by decide!, by decide⟩,
    ⟨(orderBy sampleDB.expenses).map Row.record, by decide!, by decide, by decide!, by decide⟩,
    ?_, ⟨(orderBy sampleOdd.expenses).map Row.record,
      Row.record (sampleOdd.expenses.get ⟨0, by decide⟩), by decide!, by decide!, by decide!,
      by decide!⟩,
    ⟨(orderBy sampleOdd.expenses).map Row.record,
      Row.record (sampleOdd.expenses.get ⟨1, by decide⟩), by decide!, by decide!, by decide!⟩⟩
  unfold SearchExpenses
  dsimp only
  rw [if_pos]
  refine ⟨?_, by decide⟩
  have hsize : sampleLongTerm.utf8ByteSize = String.utf8Len (List.replicate 49999 'a') :=
    String.utf8ByteSize_mk _
  rw [pattern_size, hsize, utf8Len_replicate]
  decide

/-- C6, amended. For a search term without the characters `%`, `_` and NUL and of at most
49998 bytes, `SearchExpenses` returns the records of `GetAllExpenses`, in the same order,
whose description or notes contain the term as LIKE reads them: up to the first NUL
character of the text, with ASCII letters compared without regard to case and U+FFFE,
U+FFFF read as U+FFFD.  Every record that contains the term character for character before
the first NUL is among them, and the empty term returns every record. -/
theorem SearchExpenses_spec (db : DB) (term : String) (hk : db.PrimaryKey) (hd : db.DatesParse)
    (hw : ∀ c ∈ term.data, c ≠ '%' ∧ c ≠ '_' ∧ c ≠ nul) (hlen : term.utf8ByteSize ≤ 49998) :
    ∃ l, GetAllExpenses db = .ok l ∧
      SearchExpenses db term = .ok (l.filter (fun x =>
        decide (containsFold x.Description term) || decide (containsFold x.Notes term))) ∧
      (∀ res, SearchExpenses db term = .ok res → ∀ x ∈ l,
        containsBeforeNul x.Description term ∨ containsBeforeNul x.Notes term → x ∈ res) ∧
      (term = "" → SearchExpenses db term = .ok l) := by
  have hn : ∀ c ∈ term.data, c ≠ nul := fun c hc => (hw c hc).2.2
  obtain ⟨l, hl, hs⟩ := selectExpenses_sublisting db hk hd
    (fun r => like ("%" ++ term ++ "%") r.description || like ("%" ++ term ++ "%") r.notes)
    (fun x => decide (containsFold x.Description term) || decide (containsFold x.Notes term))
    (fun r _ => by
      show (decide (containsFold r.description term) || decide (containsFold r.notes term))
        = (like ("%" ++ term ++ "%") r.description || like ("%" ++ term ++ "%") r.notes)
      rw [like_pattern term r.description hw, like_pattern term r.notes hw])
  have hs1 : SearchExpenses db term = .ok (l.filter (fun x =>
      decide (containsFold x.Description term) || decide (containsFold x.Notes term))) := by
    unfold SearchExpenses
    dsimp only
    rw [if_neg]
    · exact hs
    · rw [pattern_size]
      intro h
      have := h.1
      unfold maxLikePatternLength at this
      omega
  refine ⟨l, hl, hs1, ?_, ?_⟩
  · intro res hres x hx hc
    rw [hs1] at hres
    injection hres with hres
    rw [← hres, List.mem_filter]
    refine ⟨hx, ?_⟩
    rcases hc with h | h
    · simp [containsFold_of_containsBeforeNul hn h]
    · simp [containsFold_of_containsBeforeNul hn h]
  · intro ht
    rw [hs1]
    congr 1
    rw [List.filter_eq_self]
    intro x _
    rw [ht]
    simp [containsFold_empty]

/-- The theorem of C6 on the sample database for the term `coffee`, which occurs in the
description `Morning coffee` of one record and in the notes `bought coffee` of the other. -/
theorem SearchExpenses_spec_witness :
    sampleDB.PrimaryKey ∧ sampleDB.DatesParse ∧
    (∀ c ∈ "coffee".data, c ≠ '%' ∧ c ≠ '_' ∧ c ≠ nul) ∧ "coffee".utf8ByteSize ≤ 49998 ∧
    ∃ l, GetAllExpenses sampleDB = .ok l ∧
      SearchExpenses sampleDB "coffee" = .ok (l.filter (fun x =>
        decide (containsFold x.Description "coffee") || decide (containsFold x.Notes "coffee"))) ∧
      (∀ res, SearchExpenses sampleDB "coffee" = .ok res → ∀ x ∈ l,
        containsBeforeNul x.Description "coffee" ∨ containsBeforeNul x.Notes "coffee" → x ∈ res) ∧
      ("coffee" = "" → SearchExpenses sampleDB "coffee" = .ok l) :=
  ⟨by decide, by decide, by decide, by decide,
    SearchExpenses_spec sampleDB "coffee" (by decide) (by decide) (by decide) (by decide)⟩

/-- The example of the specification: the term `coffee` returns the record with description
`Morning coffee` and the record with notes `bought coffee`. -/
theorem SearchExpenses_coffee :
    ∃ a b, SearchExpenses sampleDB "coffee" = .ok [a, b] ∧
      a.Description = "Morning coffee" ∧ b.Description = "Bus" ∧ b.Notes = "bought coffee" :=
  ⟨Row.record (sampleDB.expenses.get ⟨0, by decide⟩),
    Row.record (sampleDB.expenses.get ⟨1, by decide⟩), by decide!, by decide, by decide, by decide⟩

/-! ## C9: the monthly budget -/

theorem apply_settings (db : DB) (op : Op) (h : ∀ v, op ≠ Op.setBudget v) :
    (op.apply db).settings = db.settings := by
  cases op with
  | add e =>
    simp only [Op.apply]
    by_cases hok : (AddExpense db e).2 = none
    · rw [(AddExpense_ok hok).1]
    · rw [AddExpense_fail hok]
  | delete id => simp only [Op.apply, DeleteExpense_fst]
  | setBudget v => exact absurd rfl (h v)

theorem run_settings (db : DB) (ops : List Op) (h : ∀ op ∈ ops, ∀ v, op ≠ Op.setBudget v) :
    (run db ops).settings = db.settings := by
  induction ops generalizing db with
  | nil => rfl
  | cons op ops ih =>
    rw [run_cons, ih _ (fun o ho => h o (List.mem_cons_of_mem _ ho)),
      apply_settings db op (h op (List.mem_cons_self _ _))]

theorem SetMonthlyBudget_settings (db : DB) (v : Float64) (hv : v ≠ Float64.nan) :
    (SetMonthlyBudget db v).1.settings =
      if db.settings.any (fun s => s.key = "monthly_budget") then
        db.settings.map (fun s => if s.key = "monthly_budget" then { s with value := v } else s)
      else db.settings ++ [{ key := "monthly_budget", value := v }] := by
  unfold SetMonthlyBudget
  rw [if_neg hv]
  split_ifs <;> rfl

theorem find_updated (l : List Setting) (v : Float64)
    (h : l.any (fun s => s.key = "monthly_budget") = true) :
    (l.map (fun s => if s.key = "monthly_budget" then { s with value := v } else s)).find?
      (fun s => s.key = "monthly_budget") = some { key := "monthly_budget", value := v } := by
  induction l with
  | nil => simp at h
  | cons a t ih =>
    by_cases ha : a.key = "monthly_budget"
    · simp [List.find?_cons, ha]
    · have ht : t.any (fun s => s.key = "monthly_budget") = true := by
        simpa [List.any_cons, ha] using h
      simp [List.find?_cons, ha, ih ht]

theorem find_appended (l : List Setting) (v : Float64)
    (h : l.any (fun s => s.key = "monthly_budget") = false) :
    (l ++ [({ key := "monthly_budget", value := v } : Setting)]).find?
      (fun s => s.key = "monthly_budget") = some { key := "monthly_budget", value := v } := by
  induction l with
  | nil => simp
  | cons a t ih =>
    have ha : ¬ a.key = "monthly_budget" := by
      intro e
      simp [List.any_cons, e] at h
    have ht : t.any (fun s => s.key = "monthly_budget") = false := by
      simpa [List.any_cons, ha] using h
    simp only [List.cons_append, List.find?_cons, ha, decide_False]
    exact ih ht

theorem count_key_le_one (l : List Setting) (hu : (l.map (fun s => s.key)).Nodup) (k : String) :
    (l.filter (fun s => s.key = k)).length ≤ 1 := by
  induction l with
  | nil => simp
  | cons a t ih =>
    rw [List.map_cons, List.nodup_cons] at hu
    by_cases ha : a.key = k
    · have : t.filter (fun s => decide (s.key = k)) = [] := by
        rw [List.filter_eq_nil_iff]
        intro s hs he
        exact hu.1 (List.mem_map.mpr ⟨s, hs, by rw [ha]; simpa using he⟩)
      simp [List.filter_cons, ha, this]
    · simpa [List.filter_cons, ha] using ih hu.2

/-- C9. `GetMonthlyBudget` returns 0 without error on a database on which
`SetMonthlyBudget` was never called (after any calls of `AddExpense` and `DeleteExpense`);
and after a successful `SetMonthlyBudget v`, whatever was stored before, it returns `v`,
the table `settings` holds exactly one row with key `monthly_budget`, and the expense
records are the same as before. -/
theorem MonthlyBudget_spec (db : DB) (v : Float64)
    (hu : (db.settings.map (fun s => s.key)).Nodup)
    (hok : (SetMonthlyBudget db v).2 = none) :
    (∀ ops : List Op, (∀ op ∈ ops, ∀ x, op ≠ Op.setBudget x) →
      GetMonthlyBudget (run InitDB ops) = .ok Float64.zero) ∧
    GetMonthlyBudget (SetMonthlyBudget db v).1 = .ok v ∧
    ((SetMonthlyBudget db v).1.settings.filter (fun s => s.key = "monthly_budget")).length = 1 ∧
    (SetMonthlyBudget db v).1.expenses = db.expenses := by
  have hv : v ≠ Float64.nan := by
    intro e
    unfold SetMonthlyBudget at hok
    rw [if_pos e] at hok
    exact absurd hok (by simp)
  have hs := SetMonthlyBudget_settings db v hv
  refine ⟨?_, ?_, ?_, (SetMonthlyBudget_expenses db v).1⟩
  · intro ops hops
    unfold GetMonthlyBudget
    rw [run_settings InitDB ops hops]
    rfl
  · unfold GetMonthlyBudget
    rw [hs]
    split_ifs with h
    · rw [find_updated _ v h]
    · rw [find_appended _ v (by simpa using h)]
  · rw [hs]
    split_ifs with h
    · have h1 := count_key_le_one _ hu "monthly_budget"
      have h2 : (db.settings.map
          (fun s => if s.key = "monthly_budget" then { s with value := v } else s)).filter
            (fun s => s.key = "monthly_budget")
          = (db.settings.filter (fun s => s.key = "monthly_budget")).map
              (fun s => { s with value := v }) := by
        clear hs h h1 hu hok
        induction db.settings with
        | nil => rfl
        | cons a t ih =>
          by_cases ha : a.key = "monthly_budget"
          · simp [List.filter_cons, ha, ih]
          · simp [List.filter_cons, ha, ih]
      rw [h2, List.length_map]
      have h3 : 0 < (db.settings.filter (fun s => s.key = "monthly_budget")).length := by
        rw [List.length_pos]
        intro hnil
        rw [List.any_eq_true] at h
        obtain ⟨s, hs1, hs2⟩ := h
        have : s ∈ db.settings.filter (fun s => s.key = "monthly_budget") :=
          List.mem_filter.mpr ⟨hs1, hs2⟩
        rw [hnil] at this
        exact absurd this (List.not_mem_nil _)
      omega
    · have hnil : db.settings.filter (fun s => s.key = "monthly_budget") = [] := by
        rw [List.filter_eq_nil_iff]
        intro s hs1 hs2
        exact h (List.any_eq_true.mpr ⟨s, hs1, hs2⟩)
      rw [List.filter_append, hnil]
      simp

/-- The theorem of C9 on a database that already holds a budget of 1000, which the
call replaces by 2500.5. -/
theorem MonthlyBudget_spec_witness :
    (((SetMonthlyBudget sampleDB (.fin 1000)).1.settings.map (fun s => s.key)).Nodup) ∧
    (SetMonthlyBudget (SetMonthlyBudget sampleDB (.fin 1000)).1 (.fin (5001 / 2))).2 = none ∧
    GetMonthlyBudget (SetMonthlyBudget (SetMonthlyBudget sampleDB (.fin 1000)).1
      (.fin (5001 / 2))).1 = .ok (.fin (5001 / 2)) ∧
    ((SetMonthlyBudget (SetMonthlyBudget sampleDB (.fin 1000)).1
      (.fin (5001 / 2))).1.settings.filter (fun s => s.key = "monthly_budget")).length = 1 :=
  have h := MonthlyBudget_spec (SetMonthlyBudget sampleDB (.fin 1000)).1 (.fin (5001 / 2))
    (by decide) (by decide)
  ⟨by decide, by decide, h.2.1, h.2.2.1⟩

/-! ## C10: validation in `AddExpensePrompt` -/

/-- What the validation of `AddExpensePrompt` does establish: a returned expense has a
non-empty description and category, the payment method `CASH` or `UPI`, and an amount
that is not `<= 0`, that is, an amount `> 0` or NaN. -/
theorem AddExpensePrompt_ok (rt : Runtime) (input : List String) (e : Expense)
    (h : (AddExpensePrompt rt input).1 = .ok e) :
    e.Description ≠ "" ∧ e.Category ≠ "" ∧ (e.PaymentMethod = "CASH" ∨ e.PaymentMethod = "UPI") ∧
      (Float64.gt e.Amount Float64.zero = true ∨ e.Amount = Float64.nan) := by
  unfold AddExpensePrompt at h
  simp only at h
  split at h
  · exact absurd h (by simp)
  rename_i amount _
  split at h
  · exact absurd h (by simp)
  rename_i h1
  split at h
  · exact absurd h (by simp)
  rename_i h2
  split at h
  · exact absurd h (by simp)
  rename_i h3
  split at h
  · exact absurd h (by simp)
  rename_i d hd
  split at h
  · exact absurd h (by simp)
  rename_i h5
  injection h with h
  subst h
  refine ⟨h2, h3, ?_, ?_⟩
  · by_contra hcon
    push_neg at hcon
    exact h5 hcon
  · show Float64.gt amount Float64.zero = true ∨ amount = Float64.nan
    cases amount with
    | nan => exact Or.inr rfl
    | fin q =>
      left
      simp only [Float64.le, Float64.zero, decide_eq_true_eq, not_le] at h1
      simpa [Float64.gt, Float64.lt, Float64.zero] using h1
    | inf b =>
      left
      cases b with
      | true => simp [Float64.le, Float64.zero] at h1
      | false => rfl

/-- C10, the failing input. With the lines `NaN`, `Lunch`, `Food`, `2024-03-15`, `cash` and
an empty note, `AddExpensePrompt` returns an expense without error, and its amount is NaN,
which is not greater than 0: `strconv.ParseFloat` reads `NaN`, and the test `amount <= 0`
is false for NaN. -/
theorem AddExpensePrompt_accepts_NaN (rt : Runtime) :
    (AddExpensePrompt rt ["NaN", "Lunch", "Food", "2024-03-15", "cash", ""]).1 =
      .ok { ID := 0, Amount := Float64.nan, Description := "Lunch", Category := "Food",
            Date := ⟨2024, 3, 15⟩, PaymentMethod := "CASH", Notes := "" } ∧
    Float64.gt Float64.nan Float64.zero = false := by
  constructor
  · rfl
  · rfl

/-- The payment methods `cash`, `Upi` and ` UPI ` are accepted and normalised, whatever the
Unicode case tables are. -/
theorem ToUpper_payment (rt : Runtime) :
    ToUpper rt (TrimSpace "cash") = "CASH" ∧ ToUpper rt (TrimSpace "Upi") = "UPI" ∧
      ToUpper rt (TrimSpace " UPI ") = "UPI" :=
  ⟨rfl, rfl, rfl⟩

/-! ## The invariants hold on every database the program reaches -/

/-- A date returned by `AddExpensePrompt` is the current date or a date of the layout. -/
theorem AddExpensePrompt_date (rt : Runtime) (input : List String) (e : Expense)
    (h : (AddExpensePrompt rt input).1 = .ok e) : e.Date = rt.now ∨ e.Date.Valid := by
  unfold AddExpensePrompt at h
  simp only at h
  split at h
  · exact absurd h (by simp)
  split at h
  · exact absurd h (by simp)
  split at h
  · exact absurd h (by simp)
  split at h
  · exact absurd h (by simp)
  split at h
  · exact absurd h (by simp)
  rename_i d hd
  split at h
  · exact absurd h (by simp)
  injection h with h
  subst h
  show d = rt.now ∨ d.Valid
  split_ifs at hd with h4
  · left
    exact (Option.some.inj hd).symm
  · right
    exact (Parse_eq_some hd).1

theorem apply_AmountsPositive (db : DB) (op : Op)
    (hop : ∀ e, op = Op.add e → Float64.gt e.Amount Float64.zero = true ∨ e.Amount = Float64.nan)
    (ha : db.AmountsPositive) : (op.apply db).AmountsPositive := by
  cases op with
  | add e =>
    simp only [Op.apply]
    by_cases h : (AddExpense db e).2 = none
    · obtain ⟨hdb, hnan, -⟩ := AddExpense_ok h
      rw [hdb]
      intro r hr
      simp only [List.mem_append, List.mem_singleton] at hr
      rcases hr with hr | rfl
      · exact ha r hr
      · rcases hop e rfl with h1 | h1
        · exact h1
        · exact absurd h1 hnan
    · rw [AddExpense_fail h]; exact ha
  | delete id =>
    intro r hr
    rw [Op.apply, DeleteExpense_fst] at hr
    exact ha r (List.mem_of_mem_filter hr)
  | setBudget v =>
    intro r hr
    simp only [Op.apply, (SetMonthlyBudget_expenses db v).1] at hr
    exact ha r hr

theorem run_AmountsPositive (db : DB) (ops : List Op)
    (hops : ∀ op ∈ ops, ∀ e, op = Op.add e →
      Float64.gt e.Amount Float64.zero = true ∨ e.Amount = Float64.nan)
    (ha : db.AmountsPositive) : (run db ops).AmountsPositive := by
  induction ops generalizing db with
  | nil => exact ha
  | cons op ops ih =>
    exact ih _ (fun o ho => hops o (List.mem_cons_of_mem _ ho))
      (apply_AmountsPositive db op (hops op (List.mem_cons_self _ _)) ha)

theorem InitDB_AmountsPositive : InitDB.AmountsPositive :=
  fun _ h => absurd h (List.not_mem_nil _)

/-- Starting from a new database, every history of store calls whose expenses were
returned by `AddExpensePrompt` (with a clock that shows a date of the layout) leads to a
database that satisfies the three invariants used above. -/
theorem run_invariants (rt : Runtime) (hnow : rt.now.Valid) (ops : List Op)
    (hops : ∀ op ∈ ops, ∀ e, op = Op.add e → ∃ input, (AddExpensePrompt rt input).1 = .ok e) :
    (run InitDB ops).PrimaryKey ∧ (run InitDB ops).DatesParse ∧
      (run InitDB ops).AmountsPositive := by
  refine ⟨run_PrimaryKey _ _ InitDB_PrimaryKey, run_DatesParse _ _ ?_ InitDB_DatesParse,
    run_AmountsPositive _ _ ?_ InitDB_AmountsPositive⟩
  · intro op hop
    cases op with
    | add e =>
      obtain ⟨input, hin⟩ := hops _ hop e rfl
      rcases AddExpensePrompt_date rt input e hin with h | h
      · show e.Date.Valid
        rw [h]; exact hnow
      · exact h
    | delete id => trivial
    | setBudget v => trivial
  · intro op hop e he
    obtain ⟨input, hin⟩ := hops _ hop e he
    exact (AddExpensePrompt_ok rt input e hin).2.2.2

/-- The rowid order is kept by every store call. -/
theorem apply_RowidOrder (db : DB) (op : Op) (hr : db.RowidOrder) : (op.apply db).RowidOrder := by
  cases op with
  | add e =>
    simp only [Op.apply]
    by_cases h : (AddExpense db e).2 = none
    · rw [(AddExpense_ok h).1]
      unfold DB.RowidOrder at hr ⊢
      simp only [List.map_append, List.map_cons, List.map_nil]
      unfold List.Sorted at hr ⊢
      rw [List.pairwise_append]
      refine ⟨hr, List.pairwise_singleton _ _, ?_⟩
      intro i hi1 j hj
      rw [List.mem_singleton] at hj
      obtain ⟨r, hr1, rfl⟩ := List.mem_map.mp hi1
      have h1 := largestId_ge hr1
      have h2 := le_max_right db.seq (largestId db.expenses)
      omega
    · rw [AddExpense_fail h]; exact hr
  | delete id =>
    unfold DB.RowidOrder at hr ⊢
    rw [Op.apply, DeleteExpense_fst]
    exact hr.sublist ((List.filter_sublist _).map _)
  | setBudget v =>
    unfold DB.RowidOrder at hr ⊢
    simp only [Op.apply, (SetMonthlyBudget_expenses db v).1]
    exact hr

/-- Starting from a new database, every history of store calls leaves the rows in rowid
order. -/
theorem run_RowidOrder (ops : List Op) : (run InitDB ops).RowidOrder := by
  have h : ∀ (ops : List Op) (db : DB), db.RowidOrder → (run db ops).RowidOrder := by
    intro ops
    induction ops with
    | nil => intro db hdb; exact hdb
    | cons op ops ih => intro db hdb; exact ih _ (apply_RowidOrder db op hdb)
  exact h ops InitDB List.sorted_nil

/-! ## The fuel of `Date` is enough -/

theorem normDay_calendar (fuel : Nat) : ∀ (y : Int) (m : Nat) (d : Int), 1 ≤ m → m ≤ 12 →
    (d.natAbs < fuel ∨ (1 ≤ d ∧ d ≤ daysIn m y)) →
    1 ≤ (normDay fuel y m d).month ∧ (normDay fuel y m d).month ≤ 12 ∧
      1 ≤ (normDay fuel y m d).day ∧
      (normDay fuel y m d).day ≤ daysIn (normDay fuel y m d).month (normDay fuel y m d).year := by
  induction fuel with
  | zero =>
    intro y m d h1 h2 h
    rcases h with h | h
    · omega
    · simp only [normDay]
      omega
  | succ k ih =>
    intro y m d h1 h2 h
    rw [normDay]
    by_cases c1 : d < 1
    · rw [if_pos c1]
      dsimp only
      have hm : 1 ≤ (if m = 1 then 12 else m - 1) ∧ (if m = 1 then 12 else m - 1) ≤ 12 := by
        split_ifs <;> omega
      have hn := daysIn_pos (if m = 1 then 12 else m - 1) (if m = 1 then y - 1 else y) hm.1 hm.2
      apply ih _ _ _ hm.1 hm.2
      rcases h with h | h
      · omega
      · omega
    · rw [if_neg c1]
      have hn := daysIn_pos m y h1 h2
      by_cases c2 : (daysIn m y : Int) < d
      · rw [if_pos c2]
        dsimp only
        have hm : 1 ≤ (if m = 12 then 1 else m + 1) ∧ (if m = 12 then 1 else m + 1) ≤ 12 := by
          split_ifs <;> omega
        apply ih _ _ _ hm.1 hm.2
        rcases h with h | h
        · omega
        · omega
      · rw [if_neg c2]
        simp only
        omega

/-- A date that `Date` returns is a calendar day: the steps allowed to `normDay` are enough
to bring every day argument into its month. -/
theorem Date_calendar (year month day : Int) (t : Time) (h : Date year month day = some t) :
    1 ≤ t.month ∧ t.month ≤ 12 ∧ 1 ≤ t.day ∧ t.day ≤ daysIn t.month t.year := by
  unfold Date at h
  split_ifs at h
  injection h with h
  rw [← h]
  apply normDay_calendar
  · simp only [normMonth]; omega
  · simp only [normMonth]; omega
  · left; omega

/-! ## C11: the budget warning of the ADD branch -/

/-- A successful `AddExpense` of an expense with a date of the layout makes the listing one
record longer. -/
theorem GetAllExpenses_add (db : DB) (e : Expense) (hd : db.DatesParse) (hev : e.Date.Valid)
    (hok : (AddExpense db e).2 = none) :
    ∃ before after, GetAllExpenses db = .ok before ∧
      GetAllExpenses (AddExpense db e).1 = .ok after ∧ after.length = before.length + 1 := by
  have hd1 : (AddExpense db e).1.DatesParse := apply_DatesParse db (.add e) hev hd
  refine ⟨_, _, GetAllExpenses_ok db hd, GetAllExpenses_ok _ hd1, ?_⟩
  rw [(AddExpense_ok hok).1]
  simp [(orderBy_perm _).length_eq]

/-- The budget check prints one warning, with the overage, exactly under the three
conditions of the code, and nothing otherwise. -/
theorem budgetWarning_eq (eng : Engine) (now : Time) (db : DB) (e : Expense) (b t : Float64)
    (hb : GetMonthlyBudget db = .ok b)
    (ht : GetTotalExpensesForMonth eng db now.year now.month = some (.ok t)) :
    budgetWarning eng now db e = some
      (if Float64.gt b Float64.zero = true ∧ (e.Date.year = now.year ∧ e.Date.month = now.month) ∧
          Float64.gt (Float64.add t e.Amount) b = true
      then [Output.warning (Float64.sub (Float64.add t e.Amount) b)] else []) := by
  unfold budgetWarning
  rw [hb]
  dsimp only
  by_cases c1 : Float64.gt b Float64.zero = true
  · rw [if_pos c1, ht]
    dsimp only
    by_cases c2 : e.Date.year = now.year ∧ e.Date.month = now.month
    · rw [if_pos c2]
      by_cases c3 : Float64.gt (Float64.add t e.Amount) b = true
      · rw [if_pos c3, if_pos ⟨c1, c2, c3⟩]
      · rw [if_neg c3, if_neg (fun h => c3 h.2.2)]
    · rw [if_neg c2, if_neg (fun h => c2 h.2.1)]
  · rw [if_neg c1, if_neg (fun h => c1 h.1)]

/-- After the budget check the ADD branch inserts the expense and, when the insert
succeeds, prints the success message after the warnings. -/
theorem addChecked_eq (eng : Engine) (now : Time) (db : DB) (e : Expense) (ws : List Output)
    (hw : budgetWarning eng now db e = some ws) (hok : (AddExpense db e).2 = none) :
    addChecked eng now db e = some ((AddExpense db e).1, ws ++ [Output.success]) := by
  unfold addChecked
  rw [hw]
  dsimp only
  rw [hok]

/-- An expense with a date of the layout is dated in a month exactly when its date lies
between the first and the last day of that month. -/
theorem inMonth_iff (t : Time) (ht : t.Valid) (year : Int) (m : Nat) :
    t.InMonth year m = decide (t.year = year ∧ t.month = m) := by
  obtain ⟨a0, a1, a2, a3, a4, a5⟩ := ht
  unfold Time.InMonth
  apply Bool.eq_iff_iff.mpr
  simp only [Bool.and_eq_true, Bool.not_eq_true', decide_eq_false_iff_not, decide_eq_true_eq,
    Time.Before]
  constructor
  · intro h
    omega
  · rintro ⟨rfl, rfl⟩
    omega

/-- The amounts of a month after a successful `AddExpense`: the amount of the new record
follows the earlier ones when the expense is dated in the month, and the amounts are
unchanged otherwise. -/
theorem monthAmounts_add (db : DB) (e : Expense) (year : Int) (m : Nat) (hev : e.Date.Valid)
    (hok : (AddExpense db e).2 = none) :
    monthAmounts (AddExpense db e).1 year m =
      monthAmounts db year m ++
        (if e.Date.year = year ∧ e.Date.month = m then [e.Amount] else []) := by
  have hdb := (AddExpense_ok hok).1
  have hrec : ∀ r : Row, r.date = e.Date.Format → r.record.Date = e.Date := by
    intro r hr
    apply record_Date
    rw [hr]
    exact Parse_Format e.Date hev
  unfold monthAmounts
  rw [hdb]
  simp only [List.filter_append, List.map_append]
  congr 1
  rw [List.filter_cons, hrec _ rfl, inMonth_iff e.Date hev year m]
  by_cases c : e.Date.year = year ∧ e.Date.month = m
  · rw [decide_eq_true c, if_pos rfl, if_pos c]
    rfl
  · rw [decide_eq_false c, if_neg c]
    rfl

/-- The ADD branch runs the budget check and the insert on the expense that the prompt
returned, and on a prompt error leaves the database as it was. -/
theorem addCommand_eq (eng : Engine) (rt : Runtime) (db : DB) (input : List String) :
    (∀ e r, (AddExpensePrompt rt input).1 = .ok e → addChecked eng rt.now db e = some r →
      ∃ rest, addCommand eng rt db input = some (r.1, r.2, rest)) ∧
    (∀ err, (AddExpensePrompt rt input).1 = .error err →
      ∃ rest, addCommand eng rt db input = some (db, [Output.error err], rest)) := by
  unfold addCommand
  constructor
  · intro e r h hr
    split
    · rename_i err rest heq
      rw [heq] at h
      exact absurd h (by simp)
    · rename_i e1 rest heq
      rw [heq] at h
      injection h with h
      subst h
      rw [hr]
      exact ⟨rest, rfl⟩
  · intro err h
    split
    · rename_i err1 rest heq
      rw [heq] at h
      injection h with h
      subst h
      exact ⟨rest, rfl⟩
    · rename_i e1 rest heq
      rw [heq] at h
      exact absurd h (by simp)

/-- C11. In the ADD branch, for a validated expense `e` (date of the layout, accepted by
the insert), the stored budget `b` and the total `t` of the current month: a warning is
printed exactly when `b > 0`, the date of `e` has the year and the month of the current
date, and `t + e.amount > b`, where the sum is the `float64` sum that the code computes,
and the overage it reports is `t + e.amount - b` in `float64`.  With or without the warning
`AddExpense e` is called; when the insert succeeds the success message is printed, the
listing is one record longer, and the amounts that the total of the current month is
computed from are the earlier ones followed by `e.amount` if `e` is dated in the current
month, and the earlier ones otherwise. -/
theorem addChecked_spec (eng : Engine) (now : Time) (db : DB) (e : Expense) (b t : Float64)
    (hb : GetMonthlyBudget db = .ok b)
    (ht : GetTotalExpensesForMonth eng db now.year now.month = some (.ok t))
    (hy : -999999999 ≤ now.year ∧ now.year ≤ 999999999)
    (h1 : 1 ≤ now.month) (h2 : now.month ≤ 12)
    (hd : db.DatesParse) (hev : e.Date.Valid) (hok : (AddExpense db e).2 = none) :
    ∃ db1 out, addChecked eng now db e = some (db1, out) ∧
      ((∃ over, Output.warning over ∈ out) ↔
        (Float64.gt b Float64.zero = true ∧
          (e.Date.year = now.year ∧ e.Date.month = now.month) ∧
          Float64.gt (Float64.add t e.Amount) b = true)) ∧
      (∀ over, Output.warning over ∈ out → over = Float64.sub (Float64.add t e.Amount) b) ∧
      db1 = (AddExpense db e).1 ∧
      Output.success ∈ out ∧
      (∃ before after, GetAllExpenses db = .ok before ∧
        GetAllExpenses db1 = .ok after ∧ after.length = before.length + 1) ∧
      t = (sqlSum eng (monthAmounts db now.year now.month)).getD Float64.zero ∧
      monthAmounts db1 now.year now.month =
        monthAmounts db now.year now.month ++
          (if e.Date.year = now.year ∧ e.Date.month = now.month then [e.Amount] else []) ∧
      GetTotalExpensesForMonth eng db1 now.year now.month =
        some (.ok ((sqlSum eng (monthAmounts db1 now.year now.month)).getD Float64.zero)) := by
  have hw := budgetWarning_eq eng now db e b t hb ht
  have hs := addChecked_eq eng now db e _ hw hok
  have hd1 : (AddExpense db e).1.DatesParse := apply_DatesParse db (.add e) hev hd
  have hold := GetTotalExpensesForMonth_eq eng db now.year now.month hy h1 h2 hd
  rw [ht] at hold
  refine ⟨_, _, hs, ?_, ?_, rfl, ?_, GetAllExpenses_add db e hd hev hok, ?_,
    monthAmounts_add db e now.year now.month hev hok,
    GetTotalExpensesForMonth_eq eng _ now.year now.month hy h1 h2 hd1⟩
  · split_ifs with c
    · simp [c]
    · simp [c]
  · intro over hover
    split_ifs at hover with c
    · simpa using hover
    · simp at hover
  · simp
  · injection hold with hold
    injection hold with hold

/-- The theorem of C11 on the example of the specification: budget 1000, total 900 in the
current month, and an expense of 150 dated in the current month, for the engine that adds
plainly. -/
theorem addChecked_spec_witness :
    GetMonthlyBudget sampleBudgetDB = .ok (.fin 1000) ∧
    GetTotalExpensesForMonth plainEngine sampleBudgetDB 2024 (3 : Nat) = some (.ok (.fin 900)) ∧
    (-999999999 ≤ (2024 : Int) ∧ (2024 : Int) ≤ 999999999) ∧
    sampleBudgetDB.DatesParse ∧ sampleOver.Date.Valid ∧
    (AddExpense sampleBudgetDB sampleOver).2 = none ∧
    ∃ db1 out, addChecked plainEngine ⟨2024, 3, 20⟩ sampleBudgetDB sampleOver = some (db1, out) ∧
      ((∃ over, Output.warning over ∈ out) ↔
        (Float64.gt (.fin 1000) Float64.zero = true ∧
          (sampleOver.Date.year = 2024 ∧ sampleOver.Date.month = 3) ∧
          Float64.gt (Float64.add (.fin 900) sampleOver.Amount) (.fin 1000) = true)) ∧
      (∀ over, Output.warning over ∈ out →
        over = Float64.sub (Float64.add (.fin 900) sampleOver.Amount) (.fin 1000)) ∧
      db1 = (AddExpense sampleBudgetDB sampleOver).1 ∧
      Output.success ∈ out ∧
      (∃ before after, GetAllExpenses sampleBudgetDB = .ok before ∧
        GetAllExpenses db1 = .ok after ∧ after.length = before.length + 1) ∧
      Float64.fin 900 = (sqlSum plainEngine (monthAmounts sampleBudgetDB 2024 3)).getD Float64.zero ∧
      monthAmounts db1 2024 3 =
        monthAmounts sampleBudgetDB 2024 3 ++
          (if sampleOver.Date.year = 2024 ∧ sampleOver.Date.month = 3 then [sampleOver.Amount]
            else []) ∧
      GetTotalExpensesForMonth plainEngine db1 2024 (3 : Nat) =
        some (.ok ((sqlSum plainEngine (monthAmounts db1 2024 3)).getD Float64.zero)) :=
  ⟨by decide!, by decide!, by decide, by decide, by decide, by decide,
    addChecked_spec plainEngine ⟨2024, 3, 20⟩ sampleBudgetDB sampleOver (.fin 1000)
      (.fin 900) (by decide!) (by decide!) (by decide) (by decide) (by decide) (by decide)
      (by decide) (by decide)⟩

/-- The example of the specification evaluated, whether the engine adds plainly or with
compensation: the warning reports an overage of 50, the success message follows, and the
total of the month becomes 1050. -/
theorem addChecked_example :
    addChecked plainEngine ⟨2024, 3, 20⟩ sampleBudgetDB sampleOver
      = some ((AddExpense sampleBudgetDB sampleOver).1, [Output.warning (.fin 50), Output.success]) ∧
    addChecked compensatedEngine ⟨2024, 3, 20⟩ sampleBudgetDB sampleOver
      = some ((AddExpense sampleBudgetDB sampleOver).1, [Output.warning (.fin 50), Output.success]) ∧
    GetTotalExpensesForMonth plainEngine (AddExpense sampleBudgetDB sampleOver).1 2024 (3 : Nat)
      = some (.ok (.fin 1050)) ∧
    GetTotalExpensesForMonth compensatedEngine (AddExpense sampleBudgetDB sampleOver).1 2024
      (3 : Nat) = some (.ok (.fin 1050)) ∧
    (AddExpense sampleBudgetDB sampleOver).1.expenses.length = 2 := by
  refine ⟨by decide!, by decide!, by decide!, by decide!, by decide⟩

/-- The comparison is the one of `float64`: with a budget of 100.07, a total of 50.01 in
the current month and an expense of 50.06, the sum that the code computes is the budget
itself and no warning is printed, although the exact sum of the two stored values is
greater than the stored budget. -/
theorem addChecked_rounding :
    GetMonthlyBudget sampleTightDB = .ok (.fin (1760450057464709 / 17592186044416)) ∧
    GetTotalExpensesForMonth plainEngine sampleTightDB 2024 (3 : Nat)
      = some (.ok (.fin (7038281792649953 / 140737488355328))) ∧
    sampleTight.Amount = .fin (880664833383465 / 17592186044416) ∧
    (1760450057464709 / 17592186044416 : ℚ)
      < 7038281792649953 / 140737488355328 + 880664833383465 / 17592186044416 ∧
    addChecked plainEngine ⟨2024, 3, 20⟩ sampleTightDB sampleTight
      = some ((AddExpense sampleTightDB sampleTight).1, [Output.success]) := by
  refine ⟨by decide!, by decide!, by decide!, by decide!, by decide!⟩

end ExpenseTracker
